import Mathlib

set_option maxHeartbeats 1000000

/-!
A verification development for the exception mechanism in `src/C/except.c` and
`src/C/except.h`: a thread-aware, allocation-free try/catch implementation with
two fixed-size registries (environment slots for resumption points and a pool
of exception records with cause chaining).

The embedding is shallow: the two global arrays become lists of entry
structures, every registry operation of the C file becomes a pure function on
this state, and the `assert` calls and the undefined behaviors of the C code
(pool exhaustion, missing environment entry, invalid pool pointer) become
explicit error results.  The saved `jmp_buf` contents are not modeled; a
resumption point is identified by its slot index, and the non-local transfer
performed by `longjmp` is represented by returning the index of the target
slot.
-/

/-- ENV_LIST_SIZE in except.c. -/
def envListSize : Nat := 16

/-- EXCEPTION_LIST_SIZE in except.c. -/
def exceptionListSize : Nat := 16

/-- MAX_MSG_LEN in except.h. -/
def maxMsgLen : Nat := 2048

/-- One entry of `envList` (struct _EnvEntry): the `jmp_buf` itself is not
modeled, the slot index plays the role of the resumption-point handle.
Threads are modeled by natural-number identities. -/
structure EnvEntry where
  used : Bool
  level : Nat
  thread : Nat
  deriving DecidableEq

/-- One entry of `exceptionList` (struct _ExceptionEntry) with the embedded
`Exception` struct flattened into it: `code`, `msg` and `cause` are the fields
of the `Exception`, where `cause` holds the pool index of the causing record
(`none` models a NULL cause pointer) and `msg` holds the bytes written to the
message buffer.  `used`, `thrown` and `isCause` are the three bit-fields of
the entry (the bit-field named `cause` in the C source is called `isCause`
here because the name `cause` is taken by the pointer field). -/
structure ExceptionEntry where
  code : Nat
  msg : List Nat
  cause : Option Nat
  used : Bool
  thrown : Bool
  isCause : Bool
  thread : Nat
  deriving DecidableEq

/-- The two global registries of except.c. -/
structure ExState where
  envList : List EnvEntry
  exceptionList : List ExceptionEntry
  deriving DecidableEq

def initEnvEntry : EnvEntry := { used := false, level := 0, thread := 0 }

def initExcEntry : ExceptionEntry :=
  { code := 0, msg := [], cause := none, used := false, thrown := false
    isCause := false, thread := 0 }

/-- The state after `exInit`: the global arrays are zero-initialized, `exInit`
only links the `next` pointers, which the list representation makes
implicit. -/
def initState : ExState :=
  { envList := List.replicate envListSize initEnvEntry
    exceptionList := List.replicate exceptionListSize initExcEntry }

def envAt (s : ExState) (i : Nat) : EnvEntry := s.envList.getD i initEnvEntry

def excAt (s : ExState) (i : Nat) : ExceptionEntry :=
  s.exceptionList.getD i initExcEntry

def setEnv (s : ExState) (i : Nat) (e : EnvEntry) : ExState :=
  { s with envList := s.envList.set i e }

def setExc (s : ExState) (i : Nat) (e : ExceptionEntry) : ExState :=
  { s with exceptionList := s.exceptionList.set i e }

/-- The body of the loop of `getLastEnvEntry`: keep in `last` the used entry
of the given thread with the strictly largest level seen so far. -/
def lastPick (s : ExState) (t i : Nat) (last : Option Nat) : Option Nat :=
  if (envAt s i).used ∧ (envAt s i).thread = t then
    match last with
    | none => some i
    | some j => if (envAt s j).level < (envAt s i).level then some i else some j
  else last

/-- The loop of `getLastEnvEntry`: the C code walks the array from index
ENV_LIST_SIZE - 1 down to 0. -/
def getLastEnvEntryAux (s : ExState) (t : Nat) : List Nat → Option Nat → Option Nat
  | [], last => last
  | i :: rest, last => getLastEnvEntryAux s t rest (lastPick s t i last)

/-- getLastEnvEntry in except.c: the slot of the given thread with the highest
nesting level, `none` when the thread owns no used slot (the C function
returns NULL then). -/
def getLastEnvEntry (s : ExState) (t : Nat) : Option Nat :=
  getLastEnvEntryAux s t (List.range envListSize).reverse none

/-- The scan loop of `pushCallingEnv`: walking the list in order, remember the
first unused slot and count the used slots owned by the calling thread. -/
def pushScan (s : ExState) (t : Nat) :
    List Nat → Option Nat → Nat → Option Nat × Nat
  | [], unused, level => (unused, level)
  | i :: rest, unused, level =>
      if unused = none ∧ ¬(envAt s i).used then pushScan s t rest (some i) level
      else if (envAt s i).used ∧ (envAt s i).thread = t then
        pushScan s t rest unused (level + 1)
      else pushScan s t rest unused level

/-- pushCallingEnv in except.c, for calling thread `t`: reserve the first
unused environment slot, assigning it the computed level and the thread
identity, and return it (the C function returns a pointer to the `jmp_buf` of
the slot; the model returns the slot index).  When no slot is unused the C
code dereferences a NULL pointer, which the model reports as `none`. -/
def pushCallingEnv (s : ExState) (t : Nat) : Option (ExState × Nat) :=
  match pushScan s t (List.range envListSize) none 0 with
  | (none, _) => none
  | (some u, level) =>
      some (setEnv s u { envAt s u with used := true, level := level, thread := t }, u)

/-- The scan loop of `popCallingEnv` over the exception pool: the first entry
that is used, thrown and owned by the given thread. -/
def findThrown (s : ExState) (t : Nat) : List Nat → Option Nat
  | [] => none
  | i :: rest =>
      if (excAt s i).used ∧ (excAt s i).thrown ∧ (excAt s i).thread = t then some i
      else findThrown s t rest

/-- popCallingEnv in except.c, for calling thread `t`: clear the used flag of
the last environment entry of the thread, then scan the exception pool for a
used, thrown record of the thread; if one is found clear its thrown flag and
hand it out (`some k`), otherwise leave the out-parameter untouched (`none`).
When the thread has no environment entry the C code dereferences NULL; the
model reports `none` for the whole call. -/
def popCallingEnv (s : ExState) (t : Nat) : Option (ExState × Option Nat) :=
  match getLastEnvEntry s t with
  | none => none
  | some j =>
      let s1 := setEnv s j { envAt s j with used := false }
      match findThrown s1 t (List.range exceptionListSize) with
      | some k => some (setExc s1 k { excAt s1 k with thrown := false }, some k)
      | none => some (s1, none)

/-- getExceptionEntry in except.c: the C function scans the pool for the entry
whose embedded `Exception` has the given address and returns NULL when the
pointer does not belong to the pool.  With records identified by pool indices
this is the identity on valid indices. -/
def getExceptionEntry (e : Nat) : Option Nat :=
  if e < exceptionListSize then some e else none

/-- The scan loop of `allocExceptionEntry`: the first unused entry. -/
def allocScan (s : ExState) : List Nat → Option Nat
  | [] => none
  | i :: rest => if ¬(excAt s i).used then some i else allocScan s rest

/-- allocExceptionEntry in except.c: find the first unused pool entry, clear
its `cause` bit-field and set its `used` bit.  Returns `none` (the C function
returns NULL) when the pool is exhausted. -/
def allocExceptionEntry (s : ExState) : Option (ExState × Nat) :=
  match allocScan s (List.range exceptionListSize) with
  | none => none
  | some i => some (setExc s i { excAt s i with isCause := false, used := true }, i)

/-- The ways a registry operation of except.c can fail to produce a successor
state: a failing `assert` (a contract violation aborts the program) or
undefined behavior (NULL dereference on pool exhaustion, on a missing
environment entry, or on a pointer that is not in the pool). -/
inductive CError where
  | assertFail
  | undefined
  deriving DecidableEq

/-- The three asserts guarding a supplied cause in `exAlloc` and `exThrow`:
the cause must be a pool record that is used, is not already the cause of
another record, and is not in flight.  An invalid pointer makes the asserts
dereference the NULL returned by `getExceptionEntry`. -/
def checkCause (s : ExState) (cause : Option Nat) : Option CError :=
  match cause with
  | none => none
  | some c =>
      match getExceptionEntry c with
      | none => some CError.undefined
      | some c' =>
          if ¬(excAt s c').used then some CError.assertFail
          else if (excAt s c').isCause then some CError.assertFail
          else if (excAt s c').thrown then some CError.assertFail
          else none

/-- `getExceptionEntry(cause)->cause = 1` in exAlloc and exThrow. -/
def attachCause (s : ExState) (cause : Option Nat) : ExState :=
  match cause with
  | none => s
  | some c => setExc s c { excAt s c with isCause := true }

/-- Models C99 vsnprintf(dst, n, fmt, args): `formatted` is the byte sequence
the format expansion produces; at most n - 1 of its bytes are stored and a
terminating null byte is appended, so nothing beyond index n - 1 of the
destination buffer is ever written. -/
def vsnprintfBuf (n : Nat) (formatted : List Nat) : List Nat :=
  formatted.take (n - 1) ++ [0]

/-- exAlloc in except.c.  `formatted` stands for the expansion of the format
template and the variadic arguments; the stored message is its truncation by
`vsnprintf` to the MAX_MSG_LEN-byte buffer.  Returns the new state and the
index of the record built. -/
def exAlloc (s : ExState) (code : Nat) (cause : Option Nat)
    (formatted : List Nat) : Except CError (ExState × Nat) :=
  match checkCause s cause with
  | some err => .error err
  | none =>
      match allocExceptionEntry s with
      | none => .error .undefined
      | some (s1, i) =>
          let s2 := attachCause s1 cause
          .ok (setExc s2 i
                { excAt s2 i with
                  code := code, cause := cause
                  msg := vsnprintfBuf maxMsgLen formatted }, i)

/-- exThrow in except.c, on thread `t`: same record construction as exAlloc
but the record is additionally marked thrown and stamped with the throwing
thread, and control is transferred by `longjmp` to the last environment entry
of the thread.  The result carries the new state, the index of the thrown
record and the index of the environment slot jumped to. -/
def exThrow (s : ExState) (t : Nat) (code : Nat) (cause : Option Nat)
    (formatted : List Nat) : Except CError (ExState × Nat × Nat) :=
  match checkCause s cause with
  | some err => .error err
  | none =>
      match allocExceptionEntry s with
      | none => .error .undefined
      | some (s1, i) =>
          let s2 := setExc s1 i { excAt s1 i with thrown := true, thread := t }
          match getLastEnvEntry s2 t with
          | none => .error .undefined
          | some j =>
              let s3 := attachCause s2 cause
              .ok (setExc s3 i
                    { excAt s3 i with
                      code := code, cause := cause
                      msg := vsnprintfBuf maxMsgLen formatted }, i, j)

/-- exRepeat in except.c, on thread `t`: the record must be used and not
already thrown; it is marked thrown under the current thread and control is
transferred to the last environment entry of the thread.  The result carries
the new state and the environment slot jumped to. -/
def exRepeat (s : ExState) (t : Nat) (e : Nat) : Except CError (ExState × Nat) :=
  match getExceptionEntry e with
  | none => .error .undefined
  | some i =>
      if ¬(excAt s i).used then .error .assertFail
      else if (excAt s i).thrown then .error .assertFail
      else
        let s1 := setExc s i { excAt s i with thrown := true, thread := t }
        match getLastEnvEntry s1 t with
        | none => .error .undefined
        | some j => .ok (s1, j)

/-- The freeing loop of `exFree`: `for (; e; e = e->cause) used = 0`.  The C
loop is unbounded; the model carries fuel, which `exFree` instantiates with
the pool size: a cause chain in a valid state visits pairwise distinct pool
entries, of which there are only `exceptionListSize`. -/
def freeChain (s : ExState) : Nat → Option Nat → ExState
  | _, none => s
  | 0, some _ => s
  | fuel + 1, some i =>
      let s1 := setExc s i { excAt s i with used := false }
      freeChain s1 fuel (excAt s1 i).cause

/-- exFree in except.c: the record must be used, must not be the cause of
another record and must not be in flight; the whole cause chain is then
returned to the pool by clearing the used flags. -/
def exFree (s : ExState) (e : Nat) : Except CError ExState :=
  match getExceptionEntry e with
  | none => .error .undefined
  | some i =>
      if ¬(excAt s i).used then .error .assertFail
      else if (excAt s i).isCause then .error .assertFail
      else if (excAt s i).thrown then .error .assertFail
      else .ok (freeChain s exceptionListSize (some i))

/-- The cause chain starting at `o`, as the list of pool indices the freeing
loop of `exFree` visits within the given fuel. -/
def causeChainList (s : ExState) : Nat → Option Nat → List Nat
  | _, none => []
  | 0, some _ => []
  | fuel + 1, some i => i :: causeChainList s fuel (excAt s i).cause

/-- One step along a cause chain. -/
def stepCause (s : ExState) (o : Option Nat) : Option Nat :=
  o.bind (fun i => (excAt s i).cause)

/-- `k` steps along a cause chain. -/
def iterCause (s : ExState) : Nat → Option Nat → Option Nat
  | 0, o => o
  | k + 1, o => iterCause s k (stepCause s o)

/-- The number of used records whose cause pointer designates `r`. -/
def causeRefCount (s : ExState) (r : Nat) : Nat :=
  (List.range exceptionListSize).countP
    (fun i => (excAt s i).used && ((excAt s i).cause == some r))

/-- The number of used environment slots owned by thread `t`. -/
def envCount (s : ExState) (t : Nat) : Nat :=
  (List.range envListSize).countP
    (fun i => (envAt s i).used && ((envAt s i).thread == t))

/-- A used environment slot owned by thread `t`. -/
def envMatch (s : ExState) (t : Nat) (i : Nat) : Prop :=
  (envAt s i).used ∧ (envAt s i).thread = t

instance (s : ExState) (t i : Nat) : Decidable (envMatch s t i) := by
  unfold envMatch; infer_instance

/-! ### The invariants -/

/-- What C6 states for the environment registry: the list has its static
length, no two used slots of one thread share a level, and the level of every
used slot is below the number of used slots of its thread (with the previous
point this makes the levels of each thread exactly 0, 1, ..., count - 1). -/
def EnvInv (s : ExState) : Prop :=
  s.envList.length = envListSize ∧
  (∀ i < envListSize, ∀ j < envListSize,
    (envAt s i).used → (envAt s j).used →
    (envAt s i).thread = (envAt s j).thread →
    (envAt s i).level = (envAt s j).level → i = j) ∧
  (∀ i < envListSize, (envAt s i).used →
    (envAt s i).level < envCount s (envAt s i).thread)

/-- The exception-pool invariants: the list keeps its static length; the cause
pointer of a used record designates a used pool record whose is-a-cause bit is
set; a record is referenced as a cause at most once and only when its
is-a-cause bit is set; a record that is not in use is not marked thrown; and
the cause chain of every used record terminates within the pool size and
visits pairwise distinct entries; finally, a used record whose is-a-cause
bit is set is referenced by at least one used record. -/
def ExcInv (s : ExState) : Prop :=
  s.exceptionList.length = exceptionListSize ∧
  (∀ i < exceptionListSize, (excAt s i).used →
    ∀ r, (excAt s i).cause = some r →
      r < exceptionListSize ∧ (excAt s r).used ∧ (excAt s r).isCause) ∧
  (∀ r < exceptionListSize,
    causeRefCount s r ≤ if (excAt s r).isCause then 1 else 0) ∧
  (∀ i < exceptionListSize, ¬(excAt s i).used → ¬(excAt s i).thrown) ∧
  (∀ i < exceptionListSize, (excAt s i).used →
    iterCause s exceptionListSize (some i) = none ∧
    (causeChainList s exceptionListSize (some i)).Nodup) ∧
  (∀ r < exceptionListSize, (excAt s r).used → (excAt s r).isCause →
    1 ≤ causeRefCount s r)

def StateInv (s : ExState) : Prop := EnvInv s ∧ ExcInv s

/-- One atomic registry operation (one mutex-protected critical section of
except.c), by any thread.  A step exists only when the operation runs to
completion: a failing assert aborts the program and undefined behavior has no
defined successor state, so neither yields a step.  The `free` step carries,
beyond the asserts of `exFree` itself, the usage rule documented in except.h
that an exception currently being thrown on another thread must not be freed:
no record of the freed cause chain is in flight. -/
inductive Step : ExState → ExState → Prop where
  | push : ∀ s t s' u, pushCallingEnv s t = some (s', u) → Step s s'
  | pop : ∀ s t s' r, popCallingEnv s t = some (s', r) → Step s s'
  | alloc : ∀ s code cause fmt s' i,
      exAlloc s code cause fmt = .ok (s', i) → Step s s'
  | throw : ∀ s t code cause fmt s' i j,
      exThrow s t code cause fmt = .ok (s', i, j) → Step s s'
  | rethrow : ∀ s t e s' j, exRepeat s t e = .ok (s', j) → Step s s'
  | free : ∀ s e s', exFree s e = .ok s' →
      (∀ i ∈ causeChainList s exceptionListSize (some e), ¬(excAt s i).thrown) →
      Step s s'

/-- The states the registries can be in after `exInit` under legal use of the
API. -/
inductive Reachable : ExState → Prop where
  | init : Reachable initState
  | step : ∀ s s', Reachable s → Step s s' → Reachable s'

/-! ### Concrete states for instantiating the theorems -/

/-- One protected-block entry by thread 0 from the initial state. -/
def demoPush : ExState :=
  match pushCallingEnv initState 0 with
  | some p => p.1
  | none => initState

/-- A standalone record allocated from the initial state. -/
def demoAllocA : ExState :=
  match exAlloc initState 3 none [65] with
  | .ok p => p.1
  | .error _ => initState

/-- A second record with the first record as its cause. -/
def demoAllocB : ExState :=
  match exAlloc demoAllocA 4 (some 0) [66] with
  | .ok p => p.1
  | .error _ => demoAllocA

/-- demoPush followed by a standalone record allocation. -/
def demoPushAlloc : ExState :=
  match exAlloc demoPush 3 none [65] with
  | .ok p => p.1
  | .error _ => demoPush

/-- demoPush followed by a throw on thread 0. -/
def demoThrow : ExState :=
  match exThrow demoPush 0 5 none [66] with
  | .ok p => p.1
  | .error _ => demoPush

/-- Delivery following demoThrow. -/
def demoPop : ExState :=
  match popCallingEnv demoThrow 0 with
  | some p => p.1
  | none => demoThrow

/-- exRepeat of the record of demoPushAlloc on thread 0. -/
def demoRepeat : ExState :=
  match exRepeat demoPushAlloc 0 0 with
  | .ok p => p.1
  | .error _ => demoPushAlloc

/-- Delivery following demoRepeat. -/
def demoRepeatPop : ExState :=
  match popCallingEnv demoRepeat 0 with
  | some p => p.1
  | none => demoRepeat

/-- A formatted output longer than the message capacity. -/
def bigMsg : List Nat := List.replicate maxMsgLen 65

/-- Record allocation whose formatted message overflows the buffer. -/
def bigState : ExState :=
  match exAlloc initState 0 none bigMsg with
  | .ok p => p.1
  | .error _ => initState

/-- Normal exit of the block entered in demoPush. -/
def demoPushPop : ExState :=
  match popCallingEnv demoPush 0 with
  | some p => p.1
  | none => demoPush

/-! ### Basic facts about state access -/

theorem excAt_setExc (s : ExState) (i : Nat) (e : ExceptionEntry) (k : Nat) :
    excAt (setExc s i e) k =
      if k = i ∧ i < s.exceptionList.length then e else excAt s k := by
  by_cases hk : k = i
  · subst hk
    by_cases hl : k < s.exceptionList.length
    · simp [excAt, setExc, List.getD, List.getElem?_set_self, hl]
    · simp only [hl, and_false, if_false]
      simp [excAt, setExc, List.set_eq_of_length_le (Nat.le_of_not_lt hl)]
  · simp [excAt, setExc, List.getD, List.getElem?_set_ne (fun h => hk h.symm), hk]

theorem envAt_setEnv (s : ExState) (i : Nat) (e : EnvEntry) (k : Nat) :
    envAt (setEnv s i e) k =
      if k = i ∧ i < s.envList.length then e else envAt s k := by
  by_cases hk : k = i
  · subst hk
    by_cases hl : k < s.envList.length
    · simp [envAt, setEnv, List.getD, List.getElem?_set_self, hl]
    · simp only [hl, and_false, if_false]
      simp [envAt, setEnv, List.set_eq_of_length_le (Nat.le_of_not_lt hl)]
  · simp [envAt, setEnv, List.getD, List.getElem?_set_ne (fun h => hk h.symm), hk]

theorem excAt_setEnv (s : ExState) (i : Nat) (e : EnvEntry) :
    excAt (setEnv s i e) = excAt s := rfl

theorem envAt_setExc (s : ExState) (i : Nat) (e : ExceptionEntry) :
    envAt (setExc s i e) = envAt s := rfl

theorem length_setExc (s : ExState) (i : Nat) (e : ExceptionEntry) :
    (setExc s i e).exceptionList.length = s.exceptionList.length := by
  simp [setExc]

theorem length_setEnv (s : ExState) (i : Nat) (e : EnvEntry) :
    (setEnv s i e).envList.length = s.envList.length := by
  simp [setEnv]

theorem initExcEntry_not_used : initExcEntry.used = false := rfl

theorem excAt_default (s : ExState) (i : Nat) (h : s.exceptionList.length ≤ i) :
    excAt s i = initExcEntry := by
  simp [excAt, List.getD, List.getElem?_eq_none h]

/-! ### The scan loops -/

theorem allocScan_some (s : ExState) (l : List Nat) (i : Nat)
    (h : allocScan s l = some i) : i ∈ l ∧ ¬(excAt s i).used := by
  induction l with
  | nil => simp [allocScan] at h
  | cons a rest ih =>
      rw [allocScan] at h
      split at h
      · cases h
        exact ⟨List.mem_cons_self _ _, by assumption⟩
      · rcases ih h with ⟨hm, hu⟩
        exact ⟨List.mem_cons_of_mem _ hm, hu⟩

theorem findThrown_some (s : ExState) (t : Nat) (l : List Nat) (k : Nat)
    (h : findThrown s t l = some k) :
    k ∈ l ∧ (excAt s k).used ∧ (excAt s k).thrown ∧ (excAt s k).thread = t := by
  induction l with
  | nil => simp [findThrown] at h
  | cons a rest ih =>
      rw [findThrown] at h
      split at h
      · cases h
        exact ⟨List.mem_cons_self _ _, by assumption⟩
      · rcases ih h with ⟨hm, hq⟩
        exact ⟨List.mem_cons_of_mem _ hm, hq⟩

theorem findThrown_none (s : ExState) (t : Nat) (l : List Nat)
    (h : findThrown s t l = none) :
    ∀ i ∈ l, ¬((excAt s i).used ∧ (excAt s i).thrown ∧ (excAt s i).thread = t) := by
  induction l with
  | nil => intro i hi; simp at hi
  | cons a rest ih =>
      rw [findThrown] at h
      split at h
      · cases h
      · intro i hi
        rcases List.mem_cons.mp hi with rfl | hi
        · assumption
        · exact ih h i hi

theorem pushScan_level (s : ExState) (t : Nat) :
    ∀ (l : List Nat) (acc : Option Nat) (lvl : Nat),
      (pushScan s t l acc lvl).2 =
        lvl + l.countP (fun i => (envAt s i).used && ((envAt s i).thread == t)) := by
  intro l
  induction l with
  | nil => intro acc lvl; simp [pushScan]
  | cons a rest ih =>
      intro acc lvl
      rw [pushScan]
      split
      · rename_i h
        have hp : ((envAt s a).used && ((envAt s a).thread == t)) = false := by
          simp [h.2]
        rw [ih, List.countP_cons, hp]
        simp
      · split
        · rename_i h
          have hp : ((envAt s a).used && ((envAt s a).thread == t)) = true := by
            simp [h.1, h.2]
          rw [ih, List.countP_cons, hp]
          simp
          omega
        · rename_i h1 h2
          have hp : ((envAt s a).used && ((envAt s a).thread == t)) = false := by
            simp only [Bool.and_eq_true, beq_iff_eq, Bool.eq_false_iff]
            intro hc
            rcases Bool.and_eq_true _ _ |>.mp hc with ⟨hx, hy⟩
            exact h2 ⟨hx, by simpa using hy⟩
          rw [ih, List.countP_cons, hp]
          simp

theorem pushScan_unused (s : ExState) (t : Nat) :
    ∀ (l : List Nat) (acc : Option Nat) (lvl u : Nat),
      (pushScan s t l acc lvl).1 = some u →
      acc = some u ∨ (u ∈ l ∧ ¬(envAt s u).used) := by
  intro l
  induction l with
  | nil => intro acc lvl u h; simp [pushScan] at h; exact Or.inl h
  | cons a rest ih =>
      intro acc lvl u h
      rw [pushScan] at h
      split at h
      · rename_i hc
        rcases ih (some a) lvl u h with h1 | h1
        · have : a = u := Option.some.inj h1
          subst this
          exact Or.inr ⟨List.mem_cons_self _ _, hc.2⟩
        · exact Or.inr ⟨List.mem_cons_of_mem _ h1.1, h1.2⟩
      · split at h
        · rcases ih _ _ _ h with h1 | h1
          · exact Or.inl h1
          · exact Or.inr ⟨List.mem_cons_of_mem _ h1.1, h1.2⟩
        · rcases ih _ _ _ h with h1 | h1
          · exact Or.inl h1
          · exact Or.inr ⟨List.mem_cons_of_mem _ h1.1, h1.2⟩

theorem getLastAux_none (s : ExState) (t : Nat) :
    ∀ (l : List Nat) (last : Option Nat),
      getLastEnvEntryAux s t l last = none →
      last = none ∧ ∀ i ∈ l, ¬ envMatch s t i := by
  intro l
  induction l with
  | nil => intro last h; exact ⟨h, by simp⟩
  | cons a rest ih =>
      intro last h
      rw [getLastEnvEntryAux] at h
      rcases ih _ h with ⟨hl, hr⟩
      rw [lastPick.eq_def] at hl
      split at hl
      · rename_i hm
        split at hl
        · cases hl
        · split at hl <;> cases hl
      · rename_i hm
        refine ⟨hl, ?_⟩
        intro i hi
        rcases List.mem_cons.mp hi with rfl | hi
        · exact hm
        · exact hr i hi

theorem getLastAux_some (s : ExState) (t : Nat) :
    ∀ (l : List Nat) (last : Option Nat) (j : Nat),
      getLastEnvEntryAux s t l last = some j →
      (∀ j0, last = some j0 → envMatch s t j0) →
      envMatch s t j ∧ (j ∈ l ∨ last = some j) ∧
      (∀ i ∈ l, envMatch s t i → (envAt s i).level ≤ (envAt s j).level) ∧
      (∀ j0, last = some j0 → (envAt s j0).level ≤ (envAt s j).level) := by
  intro l
  induction l with
  | nil =>
      intro last j h hpre
      simp only [getLastEnvEntryAux] at h
      refine ⟨hpre j h, Or.inr h, by simp, ?_⟩
      intro j0 h0
      rw [h0] at h
      cases Option.some.inj h
      exact Nat.le_refl _
  | cons a rest ih =>
      intro last j h hpre
      rw [getLastEnvEntryAux, lastPick.eq_def] at h
      by_cases hm : (envAt s a).used = true ∧ (envAt s a).thread = t
      · rw [if_pos hm] at h
        rcases last with _ | j0
        · rcases ih (some a) j h (by intro x hx; cases Option.some.inj hx; exact hm)
            with ⟨h1, h2, h3, h4⟩
          refine ⟨h1, ?_, ?_, ?_⟩
          · rcases h2 with h2 | h2
            · exact Or.inl (List.mem_cons_of_mem _ h2)
            · cases Option.some.inj h2
              exact Or.inl (List.mem_cons_self _ _)
          · intro i hi hmi
            rcases List.mem_cons.mp hi with rfl | hi
            · exact h4 i rfl
            · exact h3 i hi hmi
          · intro x hx; cases hx
        · have hm0 : envMatch s t j0 := hpre j0 rfl
          dsimp only at h
          by_cases hcmp : (envAt s j0).level < (envAt s a).level
          · rw [if_pos hcmp] at h
            rcases ih (some a) j h (by intro x hx; cases Option.some.inj hx; exact hm)
              with ⟨h1, h2, h3, h4⟩
            refine ⟨h1, ?_, ?_, ?_⟩
            · rcases h2 with h2 | h2
              · exact Or.inl (List.mem_cons_of_mem _ h2)
              · cases Option.some.inj h2
                exact Or.inl (List.mem_cons_self _ _)
            · intro i hi hmi
              rcases List.mem_cons.mp hi with rfl | hi
              · exact h4 i rfl
              · exact h3 i hi hmi
            · intro x hx
              cases Option.some.inj hx
              exact Nat.le_trans (Nat.le_of_lt hcmp) (h4 a rfl)
          · rw [if_neg hcmp] at h
            rcases ih (some j0) j h (by intro x hx; cases Option.some.inj hx; exact hm0)
              with ⟨h1, h2, h3, h4⟩
            refine ⟨h1, ?_, ?_, ?_⟩
            · rcases h2 with h2 | h2
              · exact Or.inl (List.mem_cons_of_mem _ h2)
              · exact Or.inr h2
            · intro i hi hmi
              rcases List.mem_cons.mp hi with rfl | hi
              · exact Nat.le_trans (Nat.le_of_not_lt hcmp) (h4 j0 rfl)
              · exact h3 i hi hmi
            · intro x hx
              cases Option.some.inj hx
              exact h4 j0 rfl
      · rw [if_neg hm] at h
        rcases ih last j h hpre with ⟨h1, h2, h3, h4⟩
        refine ⟨h1, ?_, ?_, h4⟩
        · rcases h2 with h2 | h2
          · exact Or.inl (List.mem_cons_of_mem _ h2)
          · exact Or.inr h2
        · intro i hi hmi
          rcases List.mem_cons.mp hi with rfl | hi
          · exact absurd hmi hm
          · exact h3 i hi hmi

theorem getLastEnvEntry_none (s : ExState) (t : Nat)
    (h : getLastEnvEntry s t = none) :
    ∀ i < envListSize, ¬ envMatch s t i := by
  intro i hi
  have := (getLastAux_none s t _ _ h).2 i
    (by rw [List.mem_reverse]; exact List.mem_range.mpr hi)
  exact this

theorem getLastEnvEntry_some (s : ExState) (t : Nat) (j : Nat)
    (h : getLastEnvEntry s t = some j) :
    j < envListSize ∧ envMatch s t j ∧
    ∀ i < envListSize, envMatch s t i → (envAt s i).level ≤ (envAt s j).level := by
  rcases getLastAux_some s t _ _ _ h (by intro x hx; cases hx) with ⟨h1, h2, h3, _⟩
  refine ⟨?_, h1, ?_⟩
  · rcases h2 with h2 | h2
    · exact List.mem_range.mp (List.mem_reverse.mp h2)
    · cases h2
  · intro i hi hmi
    exact h3 i (by rw [List.mem_reverse]; exact List.mem_range.mpr hi) hmi

theorem getLastEnvEntry_isSome (s : ExState) (t : Nat) (i : Nat)
    (hi : i < envListSize) (hm : envMatch s t i) :
    ∃ j, getLastEnvEntry s t = some j := by
  rcases h : getLastEnvEntry s t with _ | j
  · exact absurd hm (getLastEnvEntry_none s t h i hi)
  · exact ⟨j, rfl⟩

/-! ### Counting helpers -/

theorem countP_congr_eq {p q : Nat → Bool} :
    ∀ {l : List Nat}, (∀ a ∈ l, p a = q a) → l.countP p = l.countP q :=
  fun h => List.countP_congr (fun a ha => by rw [h a ha])

theorem countP_range_update (n u : Nat) (hu : u < n) (p q : Nat → Bool)
    (hpq : ∀ i, i ≠ u → q i = p i) :
    (List.range n).countP q + (if p u then 1 else 0) =
      (List.range n).countP p + (if q u then 1 else 0) := by
  induction n with
  | zero => exact absurd hu (Nat.not_lt_zero u)
  | succ m ih =>
      rw [List.range_succ, List.countP_append, List.countP_append]
      by_cases hum : u = m
      · subst hum
        have hc : (List.range u).countP q = (List.range u).countP p :=
          countP_congr_eq (fun i hi => hpq i (Nat.ne_of_lt (List.mem_range.mp hi)))
        rw [hc]
        simp [List.countP_cons, List.countP_nil]
        by_cases hp : p u <;> by_cases hq : q u <;> simp [hp, hq]
      · have hun : u < m := Nat.lt_of_le_of_ne (Nat.le_of_lt_succ hu) hum
        have hm : q m = p m := hpq m (fun h => hum h.symm)
        have := ih hun
        simp only [List.countP_cons, List.countP_nil] at *
        rw [hm]
        omega

theorem countP_range_eq_card (n : Nat) (p : Nat → Bool) :
    (List.range n).countP p = ((Finset.range n).filter (fun i => p i = true)).card := by
  induction n with
  | zero => simp
  | succ m ih =>
      rw [List.range_succ, List.countP_append, Finset.range_succ,
        Finset.filter_insert]
      by_cases hp : p m = true
      · rw [if_pos hp, Finset.card_insert_of_not_mem (by simp)]
        simp [List.countP_cons, List.countP_nil, hp, ih]
      · rw [if_neg hp]
        simp [List.countP_cons, List.countP_nil, hp, ih]

/-! ### Cause chains -/

theorem iterCause_of_none (s : ExState) : ∀ k, iterCause s k none = none := by
  intro k
  induction k with
  | zero => rfl
  | succ m ih => rw [iterCause]; exact ih

theorem iterCause_succ_out (s : ExState) :
    ∀ (k : Nat) (o : Option Nat),
      iterCause s (k + 1) o = stepCause s (iterCause s k o) := by
  intro k
  induction k with
  | zero => intro o; rfl
  | succ m ih => intro o; rw [iterCause, ih]; rfl

theorem iterCause_none_mono (s : ExState) (k m : Nat) (o : Option Nat)
    (h : iterCause s k o = none) (hkm : k ≤ m) : iterCause s m o = none := by
  rcases Nat.exists_eq_add_of_le hkm with ⟨d, rfl⟩
  clear hkm
  induction d with
  | zero => exact h
  | succ e ih =>
      have : k + (e + 1) = (k + e) + 1 := by omega
      rw [this, iterCause_succ_out, ih]
      rfl

theorem causeChainList_congr (s s' : ExState)
    (h : ∀ i, (excAt s' i).cause = (excAt s i).cause) :
    ∀ (fuel : Nat) (o : Option Nat),
      causeChainList s' fuel o = causeChainList s fuel o := by
  intro fuel
  induction fuel with
  | zero => intro o; cases o <;> rfl
  | succ m ih =>
      intro o
      cases o with
      | none => rfl
      | some i => rw [causeChainList, causeChainList, h i, ih]

theorem iterCause_congr (s s' : ExState)
    (h : ∀ i, (excAt s' i).cause = (excAt s i).cause) :
    ∀ (fuel : Nat) (o : Option Nat), iterCause s' fuel o = iterCause s fuel o := by
  intro fuel
  induction fuel with
  | zero => intro o; rfl
  | succ m ih =>
      intro o
      rw [iterCause, iterCause, ih]
      congr 1
      cases o with
      | none => rfl
      | some i => simp [stepCause, h i]

theorem chain_avoid (s s' : ExState) (x : Nat)
    (h : ∀ i, i ≠ x → (excAt s' i).cause = (excAt s i).cause) :
    ∀ (fuel : Nat) (o : Option Nat), x ∉ causeChainList s fuel o →
      causeChainList s' fuel o = causeChainList s fuel o ∧
      iterCause s' fuel o = iterCause s fuel o := by
  intro fuel
  induction fuel with
  | zero =>
      intro o _
      cases o <;> exact ⟨rfl, rfl⟩
  | succ m ih =>
      intro o hx
      cases o with
      | none => exact ⟨rfl, by rw [iterCause_of_none, iterCause_of_none]⟩
      | some i =>
          rw [causeChainList] at hx
          have hix : i ≠ x := fun he => hx (he ▸ List.mem_cons_self _ _)
          have htail : x ∉ causeChainList s m (excAt s i).cause :=
            fun hm => hx (List.mem_cons_of_mem _ hm)
          have hco : (excAt s' i).cause = (excAt s i).cause := h i hix
          rcases ih ((excAt s i).cause) htail with ⟨h1, h2⟩
          constructor
          · rw [causeChainList, causeChainList, hco, h1]
          · rw [iterCause, iterCause]
            have : stepCause s' (some i) = stepCause s (some i) := by
              simp [stepCause, hco]
            rw [this]
            rcases hc : stepCause s (some i) with _ | r
            · rw [iterCause_of_none, iterCause_of_none]
            · have hr : (excAt s i).cause = some r := by
                simpa [stepCause] using hc
              have : x ∉ causeChainList s m (some r) := hr ▸ htail
              exact (ih (some r) this).2

theorem chain_used (s : ExState)
    (hX1 : ∀ i < exceptionListSize, (excAt s i).used →
      ∀ r, (excAt s i).cause = some r →
        r < exceptionListSize ∧ (excAt s r).used ∧ (excAt s r).isCause) :
    ∀ (fuel i : Nat), i < exceptionListSize → (excAt s i).used →
      ∀ j ∈ causeChainList s fuel (some i), j < exceptionListSize ∧ (excAt s j).used := by
  intro fuel
  induction fuel with
  | zero => intro i _ _ j hj; simp [causeChainList] at hj
  | succ m ih =>
      intro i hi hu j hj
      rw [causeChainList] at hj
      rcases List.mem_cons.mp hj with rfl | hj
      · exact ⟨hi, hu⟩
      · rcases hc : (excAt s i).cause with _ | r
        · rw [hc] at hj
          simp [causeChainList] at hj
        · rw [hc] at hj
          rcases hX1 i hi hu r hc with ⟨hr1, hr2, _⟩
          exact ih r hr1 hr2 j hj

theorem iterCause_chain_len (s : ExState) :
    ∀ (fuel : Nat) (o : Option Nat), iterCause s fuel o = none →
      iterCause s (causeChainList s fuel o).length o = none ∧
      (causeChainList s fuel o).length ≤ fuel := by
  intro fuel
  induction fuel with
  | zero =>
      intro o h
      cases o with
      | none => exact ⟨h, Nat.le_refl _⟩
      | some i => cases h
  | succ m ih =>
      intro o h
      cases o with
      | none => exact ⟨rfl, by simp [causeChainList]⟩
      | some i =>
          rw [iterCause] at h
          have hstep : stepCause s (some i) = (excAt s i).cause := rfl
          rw [hstep] at h
          rcases ih _ h with ⟨h1, h2⟩
          rw [causeChainList]
          refine ⟨?_, by simpa using Nat.succ_le_succ h2⟩
          have hlen : (i :: causeChainList s m (excAt s i).cause).length =
              (causeChainList s m (excAt s i).cause).length + 1 := rfl
          rw [hlen, iterCause, hstep]
          exact h1

theorem chain_stable (s : ExState) :
    ∀ (fuel : Nat) (o : Option Nat), iterCause s fuel o = none →
      ∀ g, fuel ≤ g → causeChainList s g o = causeChainList s fuel o := by
  intro fuel
  induction fuel with
  | zero =>
      intro o h g _
      rw [iterCause] at h
      subst h
      cases g <;> rfl
  | succ m ih =>
      intro o h g hg
      cases o with
      | none => cases g <;> rfl
      | some i =>
          rcases g with _ | g'
          · exact absurd hg (by omega)
          · rw [iterCause] at h
            have hstep : stepCause s (some i) = (excAt s i).cause := rfl
            rw [hstep] at h
            rw [causeChainList, causeChainList, ih _ h g' (Nat.le_of_succ_le_succ hg)]

/-! ### Facts about causeRefCount -/

theorem causeRefCount_pos (s : ExState) (r k : Nat) (hk : k < exceptionListSize)
    (hu : (excAt s k).used) (hc : (excAt s k).cause = some r) :
    1 ≤ causeRefCount s r := by
  have : 0 < causeRefCount s r := by
    rw [causeRefCount]
    refine List.countP_pos_iff.mpr ⟨k, List.mem_range.mpr hk, ?_⟩
    simp [hu, hc]
  omega

theorem causeRefCount_two (s : ExState) (r k p : Nat) (hkp : k ≠ p)
    (hk : k < exceptionListSize) (hp : p < exceptionListSize)
    (huk : (excAt s k).used) (hck : (excAt s k).cause = some r)
    (hup : (excAt s p).used) (hcp : (excAt s p).cause = some r) :
    2 ≤ causeRefCount s r := by
  rw [causeRefCount, countP_range_eq_card]
  have hsub : ({k, p} : Finset Nat) ⊆
      (Finset.range exceptionListSize).filter
        (fun i => ((excAt s i).used && ((excAt s i).cause == some r)) = true) := by
    intro x hx
    rcases Finset.mem_insert.mp hx with rfl | hx
    · exact Finset.mem_filter.mpr ⟨Finset.mem_range.mpr hk, by simp [huk, hck]⟩
    · rcases Finset.mem_singleton.mp hx with rfl
      exact Finset.mem_filter.mpr ⟨Finset.mem_range.mpr hp, by simp [hup, hcp]⟩
  have hcard : ({k, p} : Finset Nat).card = 2 := by
    rw [Finset.card_insert_of_not_mem (by simp [hkp]), Finset.card_singleton]
  rw [← hcard]
  exact Finset.card_le_card hsub

theorem causeRefCount_zero (s : ExState) (r : Nat)
    (h : ∀ k < exceptionListSize, ¬((excAt s k).used ∧ (excAt s k).cause = some r)) :
    causeRefCount s r = 0 := by
  rw [causeRefCount]
  refine List.countP_eq_zero.mpr ?_
  intro k hk
  have := h k (List.mem_range.mp hk)
  simp only [Bool.and_eq_true, beq_iff_eq, not_and] at this ⊢
  intro h1 h2
  exact this h1 h2





/-! ### Descriptions of the operations -/

theorem pushCallingEnv_spec (s : ExState) (t : Nat) (s' : ExState) (u : Nat)
    (h : pushCallingEnv s t = some (s', u)) :
    u < envListSize ∧ ¬(envAt s u).used ∧
    s' = setEnv s u { used := true, level := envCount s t, thread := t } := by
  rw [pushCallingEnv] at h
  rcases hscan : pushScan s t (List.range envListSize) none 0 with ⟨acc, lvl⟩
  rw [hscan] at h
  cases acc with
  | none => cases h
  | some v =>
      have hp : (setEnv s v { envAt s v with
          used := true, level := lvl, thread := t }, v) = (s', u) :=
        Option.some.inj h
      have hs : s' = setEnv s v { envAt s v with
          used := true, level := lvl, thread := t } := (congrArg Prod.fst hp).symm
      have hv : v = u := congrArg Prod.snd hp
      subst hv
      have hlvl : lvl = envCount s t := by
        have := pushScan_level s t (List.range envListSize) none 0
        rw [hscan] at this
        simpa [envCount] using this
      have hun : ¬(envAt s v).used := by
        rcases pushScan_unused s t (List.range envListSize) none 0 v
            (by rw [hscan]) with h1 | h1
        · cases h1
        · exact h1.2
      subst hlvl
      exact ⟨by
        rcases pushScan_unused s t (List.range envListSize) none 0 v
            (by rw [hscan]) with h1 | h1
        · cases h1
        · exact List.mem_range.mp h1.1, hun, hs⟩

theorem envAt_fun_eq (s s' : ExState) (h : s'.envList = s.envList) :
    envAt s' = envAt s := by
  funext i
  rw [envAt, envAt, h]

theorem excAt_fun_eq (s s' : ExState) (h : s'.exceptionList = s.exceptionList) :
    excAt s' = excAt s := by
  funext i
  rw [excAt, excAt, h]

theorem EnvInv_congr (s s' : ExState) (h : s'.envList = s.envList)
    (hI : EnvInv s) : EnvInv s' := by
  have hA : envAt s' = envAt s := envAt_fun_eq s s' h
  have hC : envCount s' = envCount s := by
    funext t
    rw [envCount, envCount, hA]
  rw [EnvInv, hA, hC, h]
  exact hI

theorem ExcInv_congr (s s' : ExState) (h : s'.exceptionList = s.exceptionList)
    (hI : ExcInv s) : ExcInv s' := by
  have hA : excAt s' = excAt s := excAt_fun_eq s s' h
  have hR : causeRefCount s' = causeRefCount s := by
    funext r
    rw [causeRefCount, causeRefCount, hA]
  have hit : ∀ fuel o, iterCause s' fuel o = iterCause s fuel o :=
    iterCause_congr s s' (fun i => by rw [hA])
  have hcl : ∀ fuel o, causeChainList s' fuel o = causeChainList s fuel o :=
    causeChainList_congr s s' (fun i => by rw [hA])
  rw [ExcInv, hA, hR, h]
  rcases hI with ⟨h1, h2, h3, h4, h5, h6⟩
  refine ⟨h1, h2, h3, h4, ?_, h6⟩
  intro i hi hu
  rw [hit, hcl]
  exact h5 i hi hu

theorem envCount_pointwise (s s' : ExState) (u : Nat) (hu : u < envListSize)
    (hoff : ∀ k, k ≠ u → envAt s' k = envAt s k) (t : Nat) :
    envCount s' t + (if (envAt s u).used ∧ (envAt s u).thread = t then 1 else 0) =
      envCount s t + (if (envAt s' u).used ∧ (envAt s' u).thread = t then 1 else 0) := by
  have := countP_range_update envListSize u hu
    (fun i => (envAt s i).used && ((envAt s i).thread == t))
    (fun i => (envAt s' i).used && ((envAt s' i).thread == t))
    (fun i hi => by simp only [hoff i hi])
  rw [envCount, envCount]
  have hb : ∀ (e : EnvEntry),
      (if (e.used && (e.thread == t)) = true then 1 else 0) =
        (if e.used ∧ e.thread = t then 1 else 0) := by
    intro e
    by_cases h1 : e.used = true <;> by_cases h2 : e.thread = t <;>
      simp [h1, h2]
  rw [hb, hb] at this
  omega

theorem EnvInv_push (s : ExState) (t : Nat) (s' : ExState) (u : Nat)
    (hI : EnvInv s) (h : pushCallingEnv s t = some (s', u)) : EnvInv s' := by
  rcases hI with ⟨hlen, huniq, hlev⟩
  rcases pushCallingEnv_spec s t s' u h with ⟨hu, hun, hs⟩
  have hlen' : s'.envList.length = envListSize := by
    rw [hs, length_setEnv, hlen]
  have hAt : ∀ k, envAt s' k =
      if k = u then { used := true, level := envCount s t, thread := t }
      else envAt s k := by
    intro k
    rw [hs, envAt_setEnv]
    by_cases hk : k = u
    · simp [hk, hlen, hu]
    · simp [hk]
  have hoff : ∀ k, k ≠ u → envAt s' k = envAt s k := by
    intro k hk
    rw [hAt, if_neg hk]
  have hsu : envAt s' u = { used := true, level := envCount s t, thread := t } := by
    rw [hAt u, if_pos rfl]
  have hCnt : ∀ t', envCount s' t' = envCount s t' + (if t' = t then 1 else 0) := by
    intro t'
    have hpw := envCount_pointwise s s' u hu hoff t'
    rw [hsu] at hpw
    have h0 : (if (envAt s u).used ∧ (envAt s u).thread = t' then 1 else 0) = 0 :=
      if_neg (fun hc => hun hc.1)
    rw [h0] at hpw
    by_cases ht : t' = t
    · subst ht
      have h1 : (if ({ used := true, level := envCount s t', thread := t' } :
          EnvEntry).used ∧ ({ used := true, level := envCount s t', thread := t' } :
          EnvEntry).thread = t' then 1 else 0) = 1 := by simp
      rw [h1] at hpw
      rw [if_pos rfl]
      omega
    · have h1 : (if ({ used := true, level := envCount s t, thread := t } :
          EnvEntry).used ∧ ({ used := true, level := envCount s t, thread := t } :
          EnvEntry).thread = t' then 1 else 0) = 0 := by
        simp only
        exact if_neg (fun hc => ht hc.2.symm)
      rw [h1] at hpw
      rw [if_neg ht]
      omega
  refine ⟨hlen', ?_, ?_⟩
  · intro i hi j hj hui huj hth hlv
    rw [hAt i] at hui hth hlv
    rw [hAt j] at huj hth hlv
    by_cases hiu : i = u <;> by_cases hju : j = u
    · rw [hiu, hju]
    · exfalso
      rw [if_pos hiu] at hth hlv
      rw [if_neg hju] at huj hth hlv
      have := hlev j hj huj
      rw [← hth, ← hlv] at this
      simp at this
    · exfalso
      rw [if_neg hiu] at hui hth hlv
      rw [if_pos hju] at hth hlv
      have := hlev i hi hui
      rw [hth, hlv] at this
      simp at this
    · rw [if_neg hiu] at hui hth hlv
      rw [if_neg hju] at huj hth hlv
      exact huniq i hi j hj hui huj hth hlv
  · intro i hi hui
    rw [hAt i] at hui ⊢
    by_cases hiu : i = u
    · rw [if_pos hiu] at hui ⊢
      simp only
      rw [hCnt t, if_pos rfl]
      omega
    · rw [if_neg hiu] at hui ⊢
      have := hlev i hi hui
      rw [hCnt]
      split <;> omega

theorem popCallingEnv_spec (s : ExState) (t : Nat) (s' : ExState) (r : Option Nat)
    (h : popCallingEnv s t = some (s', r)) :
    ∃ j, getLastEnvEntry s t = some j ∧
      ((r = none ∧ s' = setEnv s j { envAt s j with used := false } ∧
        findThrown (setEnv s j { envAt s j with used := false }) t
          (List.range exceptionListSize) = none) ∨
       (∃ k, r = some k ∧
        findThrown (setEnv s j { envAt s j with used := false }) t
          (List.range exceptionListSize) = some k ∧
        s' = setExc (setEnv s j { envAt s j with used := false }) k
          { excAt (setEnv s j { envAt s j with used := false }) k with
            thrown := false })) := by
  rw [popCallingEnv] at h
  rcases hgl : getLastEnvEntry s t with _ | j
  · rw [hgl] at h; cases h
  · rw [hgl] at h
    dsimp only at h
    refine ⟨j, rfl, ?_⟩
    rcases hft : findThrown (setEnv s j { envAt s j with used := false }) t
        (List.range exceptionListSize) with _ | k
    · rw [hft] at h
      have hp := Option.some.inj h
      exact Or.inl ⟨(congrArg Prod.snd hp).symm, (congrArg Prod.fst hp).symm, rfl⟩
    · rw [hft] at h
      have hp := Option.some.inj h
      exact Or.inr ⟨k, (congrArg Prod.snd hp).symm, rfl, (congrArg Prod.fst hp).symm⟩

theorem EnvInv_release (s : ExState) (t : Nat) (j : Nat)
    (hI : EnvInv s) (hgl : getLastEnvEntry s t = some j) :
    EnvInv (setEnv s j { envAt s j with used := false }) := by
  rcases hI with ⟨hlen, huniq, hlev⟩
  rcases getLastEnvEntry_some s t j hgl with ⟨hj, hjm, hjmax⟩
  set s2 := setEnv s j { envAt s j with used := false } with hs2
  have hlen' : s2.envList.length = envListSize := by
    rw [hs2, length_setEnv, hlen]
  have hAt : ∀ k, envAt s2 k =
      if k = j then { envAt s j with used := false } else envAt s k := by
    intro k
    rw [hs2, envAt_setEnv]
    by_cases hk : k = j
    · simp [hk, hlen, hj]
    · simp [hk]
  have hoff : ∀ k, k ≠ j → envAt s2 k = envAt s k := by
    intro k hk
    rw [hAt, if_neg hk]
  have hone : 1 ≤ envCount s t := by
    rw [envCount]
    have : 0 < (List.range envListSize).countP
        (fun i => (envAt s i).used && ((envAt s i).thread == t)) := by
      refine List.countP_pos_iff.mpr ⟨j, List.mem_range.mpr hj, ?_⟩
      simp [hjm.1, hjm.2]
    omega
  have hCnt : ∀ t', envCount s2 t' =
      envCount s t' - (if t' = t then 1 else 0) := by
    intro t'
    have hpw := envCount_pointwise s s2 j hj hoff t'
    have h1 : (if (envAt s2 j).used ∧ (envAt s2 j).thread = t' then 1 else 0) = 0 := by
      rw [hAt j, if_pos rfl]
      simp
    rw [h1] at hpw
    by_cases ht : t' = t
    · subst ht
      have h2 : (if (envAt s j).used ∧ (envAt s j).thread = t' then 1 else 0) = 1 :=
        if_pos ⟨hjm.1, hjm.2⟩
      rw [h2] at hpw
      rw [if_pos rfl]
      omega
    · have h2 : (if (envAt s j).used ∧ (envAt s j).thread = t' then 1 else 0) = 0 := by
        refine if_neg ?_
        intro hc
        exact ht (hc.2.symm.trans hjm.2)
      rw [h2] at hpw
      rw [if_neg ht]
      omega
  refine ⟨hlen', ?_, ?_⟩
  · intro i hi k hk hui huk hth hlv
    rw [hAt i] at hui hth hlv
    rw [hAt k] at huk hth hlv
    by_cases hij : i = j
    · rw [if_pos hij] at hui
      exact absurd hui (by simp)
    · by_cases hkj : k = j
      · rw [if_pos hkj] at huk
        exact absurd huk (by simp)
      · rw [if_neg hij] at hui hth hlv
        rw [if_neg hkj] at huk hth hlv
        exact huniq i hi k hk hui huk hth hlv
  · intro i hi hui
    rw [hAt i] at hui ⊢
    by_cases hij : i = j
    · rw [if_pos hij] at hui
      exact absurd hui (by simp)
    · rw [if_neg hij] at hui ⊢
      have hlvi := hlev i hi hui
      rw [hCnt]
      by_cases ht : (envAt s i).thread = t
      · rw [if_pos ht]
        have hmax := hjmax i hi ⟨hui, ht⟩
        have hne : (envAt s i).level ≠ (envAt s j).level := by
          intro he
          exact hij (huniq i hi j hj hui hjm.1 (ht.trans hjm.2.symm) he)
        have hjl := hlev j hj hjm.1
        rw [hjm.2] at hjl
        rw [ht] at hlvi
        rw [ht]
        omega
      · rw [if_neg ht]
        omega

/-- ExcInv is stable under state changes that keep every used, cause and
is-a-cause field, and keep the thrown flag of the unused records. -/
theorem ExcInv_flags (s s' : ExState)
    (hlen : s'.exceptionList.length = exceptionListSize)
    (hpt : ∀ k, (excAt s' k).used = (excAt s k).used ∧
      (excAt s' k).cause = (excAt s k).cause ∧
      (excAt s' k).isCause = (excAt s k).isCause)
    (hthr : ∀ k, ¬(excAt s k).used → (excAt s' k).thrown = (excAt s k).thrown)
    (hI : ExcInv s) : ExcInv s' := by
  rcases hI with ⟨h1, h2, h3, h4, h5, h6⟩
  have hR : ∀ r, causeRefCount s' r = causeRefCount s r := by
    intro r
    rw [causeRefCount, causeRefCount]
    refine countP_congr_eq ?_
    intro a _
    rw [(hpt a).1, (hpt a).2.1]
  have hit : ∀ fuel o, iterCause s' fuel o = iterCause s fuel o :=
    iterCause_congr s s' (fun i => (hpt i).2.1)
  have hcl : ∀ fuel o, causeChainList s' fuel o = causeChainList s fuel o :=
    causeChainList_congr s s' (fun i => (hpt i).2.1)
  refine ⟨hlen, ?_, ?_, ?_, ?_, ?_⟩
  · intro i hi hu r hc
    rw [(hpt i).1] at hu
    rw [(hpt i).2.1] at hc
    rcases h2 i hi hu r hc with ⟨hr1, hr2, hr3⟩
    exact ⟨hr1, by rw [(hpt r).1]; exact hr2, by rw [(hpt r).2.2]; exact hr3⟩
  · intro r hr
    rw [hR, (hpt r).2.2]
    exact h3 r hr
  · intro i hi hu
    rw [(hpt i).1] at hu
    rw [hthr i hu]
    exact h4 i hi hu
  · intro i hi hu
    rw [(hpt i).1] at hu
    rw [hit, hcl]
    exact h5 i hi hu
  · intro r hr hu hic
    rw [(hpt r).1] at hu
    rw [(hpt r).2.2] at hic
    rw [hR]
    exact h6 r hr hu hic

theorem exRepeat_spec (s : ExState) (t : Nat) (e : Nat) (s' : ExState) (j : Nat)
    (h : exRepeat s t e = .ok (s', j)) :
    e < exceptionListSize ∧ (excAt s e).used ∧ ¬(excAt s e).thrown ∧
    getLastEnvEntry s t = some j ∧
    s' = setExc s e { excAt s e with thrown := true, thread := t } := by
  rw [exRepeat, getExceptionEntry] at h
  by_cases he : e < exceptionListSize
  · rw [if_pos he] at h
    dsimp only at h
    by_cases hu : ¬(excAt s e).used
    · rw [if_pos hu] at h; cases h
    · rw [if_neg hu] at h
      by_cases hth : (excAt s e).thrown
      · rw [if_pos hth] at h; cases h
      · rw [if_neg hth] at h
        rcases hgl : getLastEnvEntry
            (setExc s e { excAt s e with thrown := true, thread := t }) t with _ | j0
        · rw [hgl] at h; cases h
        · rw [hgl] at h
          have hp := Except.ok.inj h
          injection hp with hp1 hp2
          refine ⟨he, Decidable.not_not.mp (fun hc => hu hc), hth, ?_, hp1.symm⟩
          rw [← hp2]
          exact hgl
  · rw [if_neg he] at h; cases h

theorem allocExceptionEntry_spec (s : ExState) (s1 : ExState) (i : Nat)
    (h : allocExceptionEntry s = some (s1, i)) :
    i < exceptionListSize ∧ ¬(excAt s i).used ∧
    s1 = setExc s i { excAt s i with isCause := false, used := true } := by
  rw [allocExceptionEntry] at h
  rcases hsc : allocScan s (List.range exceptionListSize) with _ | v
  · rw [hsc] at h; cases h
  · rw [hsc] at h
    have hp := Option.some.inj h
    injection hp with hp1 hp2
    rcases allocScan_some s _ v hsc with ⟨hm, hu⟩
    subst hp2
    exact ⟨List.mem_range.mp hm, hu, hp1.symm⟩

theorem checkCause_none (s : ExState) (cause : Option Nat)
    (h : checkCause s cause = none) :
    cause = none ∨ ∃ c, cause = some c ∧ c < exceptionListSize ∧
      (excAt s c).used ∧ ¬(excAt s c).isCause ∧ ¬(excAt s c).thrown := by
  cases cause with
  | none => exact Or.inl rfl
  | some c =>
      rw [checkCause, getExceptionEntry] at h
      by_cases hc : c < exceptionListSize
      · rw [if_pos hc] at h
        dsimp only at h
        by_cases h1 : ¬(excAt s c).used
        · rw [if_pos h1] at h; cases h
        · rw [if_neg h1] at h
          by_cases h2 : (excAt s c).isCause
          · rw [if_pos h2] at h; cases h
          · rw [if_neg h2] at h
            by_cases h3 : (excAt s c).thrown
            · rw [if_pos h3] at h; cases h
            · exact Or.inr ⟨c, rfl, hc, Decidable.not_not.mp h1, h2, h3⟩
      · rw [if_neg hc] at h
        cases h

theorem envList_setExc (s : ExState) (i : Nat) (e : ExceptionEntry) :
    (setExc s i e).envList = s.envList := rfl

theorem envList_attachCause (s : ExState) (cause : Option Nat) :
    (attachCause s cause).envList = s.envList := by
  cases cause <;> rfl

theorem exAlloc_spec (s : ExState) (code : Nat) (cause : Option Nat)
    (fmt : List Nat) (s' : ExState) (i : Nat)
    (hlen : s.exceptionList.length = exceptionListSize)
    (h : exAlloc s code cause fmt = .ok (s', i)) :
    i < exceptionListSize ∧ ¬(excAt s i).used ∧ checkCause s cause = none ∧
    s'.envList = s.envList ∧
    s'.exceptionList.length = exceptionListSize ∧
    (∀ k, excAt s' k =
      if k = i then
        { code := code, msg := vsnprintfBuf maxMsgLen fmt, cause := cause
          used := true, thrown := (excAt s i).thrown, isCause := false
          thread := (excAt s i).thread }
      else if cause = some k then { excAt s k with isCause := true }
      else excAt s k) := by
  rw [exAlloc] at h
  rcases hcc : checkCause s cause with _ | err
  · rw [hcc] at h
    dsimp only at h
    rcases halloc : allocExceptionEntry s with _ | p
    · rw [halloc] at h; cases h
    · rcases p with ⟨s1, v⟩
      rw [halloc] at h
      dsimp only at h
      have hp := Except.ok.inj h
      injection hp with hp1 hp2
      rw [hp2] at halloc hp1
      clear hp2
      rcases allocExceptionEntry_spec s s1 i halloc with ⟨hi, hiu, hs1⟩
      have hlen1 : s1.exceptionList.length = exceptionListSize := by
        rw [hs1, length_setExc, hlen]
      have hAt1 : ∀ k, excAt s1 k =
          if k = i then { excAt s i with isCause := false, used := true }
          else excAt s k := by
        intro k
        rw [hs1, excAt_setExc]
        by_cases hk : k = i
        · simp [hk, hlen, hi]
        · simp [hk]
      have hlen2 : (attachCause s1 cause).exceptionList.length = exceptionListSize := by
        cases cause with
        | none => exact hlen1
        | some c => rw [attachCause, length_setExc]; exact hlen1
      have hAt2 : ∀ k, excAt (attachCause s1 cause) k =
          if k = i then { excAt s i with isCause := false, used := true }
          else if cause = some k then { excAt s k with isCause := true }
          else excAt s k := by
        intro k
        cases cause with
        | none =>
            rw [attachCause, hAt1 k]
            by_cases hk : k = i <;> simp [hk]
        | some c =>
            have hcfacts : c < exceptionListSize ∧ (excAt s c).used := by
              rcases checkCause_none s (some c) hcc with h0 | ⟨c', hc1, hc2, hc3, _⟩
              · cases h0
              · cases Option.some.inj hc1
                exact ⟨hc2, hc3⟩
            have hcine : c ≠ i := fun hc0 => hiu (hc0 ▸ hcfacts.2)
            rw [attachCause, excAt_setExc]
            by_cases hk : k = c
            · rw [if_pos ⟨hk, by rw [hlen1]; exact hcfacts.1⟩]
              have he1 : excAt s1 c = excAt s c := by rw [hAt1 c, if_neg hcine]
              rw [he1]
              rw [if_neg (fun h0 : k = i => hcine (hk.symm.trans h0))]
              rw [if_pos (by rw [hk])]
              rw [hk]
            · rw [if_neg (fun hc0 => hk hc0.1), hAt1 k]
              by_cases hki : k = i
              · rw [if_pos hki, if_pos hki]
              · rw [if_neg hki, if_neg hki,
                  if_neg (fun hc0 => hk (Option.some.inj hc0).symm)]
      refine ⟨hi, hiu, rfl, ?_, ?_, ?_⟩
      · rw [← hp1, envList_setExc, envList_attachCause, hs1, envList_setExc]
      · rw [← hp1, length_setExc]
        exact hlen2
      · intro k
        rw [← hp1, excAt_setExc]
        by_cases hk : k = i
        · rw [if_pos ⟨hk, by rw [hlen2]; exact hi⟩]
          rw [hAt2 i, if_pos rfl]
          subst hk
          rw [if_pos rfl]
        · rw [if_neg (fun hc0 => hk hc0.1), hAt2 k, if_neg hk, if_neg hk]
  · rw [hcc] at h
    cases h

theorem getLastAux_congr (s s' : ExState) (hA : envAt s' = envAt s) (t : Nat) :
    ∀ (l : List Nat) (last : Option Nat),
      getLastEnvEntryAux s' t l last = getLastEnvEntryAux s t l last := by
  intro l
  induction l with
  | nil => intro last; rfl
  | cons a rest ih =>
      intro last
      rw [getLastEnvEntryAux, getLastEnvEntryAux, ih]
      congr 1
      rw [lastPick.eq_def, lastPick.eq_def, hA]

theorem getLastEnvEntry_congr (s s' : ExState) (h : s'.envList = s.envList)
    (t : Nat) : getLastEnvEntry s' t = getLastEnvEntry s t := by
  rw [getLastEnvEntry, getLastEnvEntry,
    getLastAux_congr s s' (envAt_fun_eq s s' h) t]

theorem exThrow_spec (s : ExState) (t : Nat) (code : Nat) (cause : Option Nat)
    (fmt : List Nat) (s' : ExState) (i j : Nat)
    (hlen : s.exceptionList.length = exceptionListSize)
    (h : exThrow s t code cause fmt = .ok (s', i, j)) :
    i < exceptionListSize ∧ ¬(excAt s i).used ∧ checkCause s cause = none ∧
    getLastEnvEntry s t = some j ∧
    s'.envList = s.envList ∧
    s'.exceptionList.length = exceptionListSize ∧
    (∀ k, excAt s' k =
      if k = i then
        { code := code, msg := vsnprintfBuf maxMsgLen fmt, cause := cause
          used := true, thrown := true, isCause := false, thread := t }
      else if cause = some k then { excAt s k with isCause := true }
      else excAt s k) := by
  rw [exThrow] at h
  rcases hcc : checkCause s cause with _ | err
  · rw [hcc] at h
    dsimp only at h
    rcases halloc : allocExceptionEntry s with _ | p
    · rw [halloc] at h; cases h
    · rcases p with ⟨s1, v⟩
      rw [halloc] at h
      dsimp only at h
      rcases hgl : getLastEnvEntry
          (setExc s1 v { excAt s1 v with thrown := true, thread := t }) t with _ | j0
      · rw [hgl] at h; cases h
      · rw [hgl] at h
        have hp := Except.ok.inj h
        injection hp with hp1 hp2
        injection hp2 with hp2 hp3
        rw [hp2] at halloc hp1 hgl
        rw [hp3] at hgl
        clear hp2 hp3
        rcases allocExceptionEntry_spec s s1 i halloc with ⟨hi, hiu, hs1⟩
        have hlen1 : s1.exceptionList.length = exceptionListSize := by
          rw [hs1, length_setExc, hlen]
        have hAt1 : ∀ k, excAt s1 k =
            if k = i then { excAt s i with isCause := false, used := true }
            else excAt s k := by
          intro k
          rw [hs1, excAt_setExc]
          by_cases hk : k = i
          · simp [hk, hlen, hi]
          · simp [hk]
        set s2 := setExc s1 i { excAt s1 i with thrown := true, thread := t } with hs2
        have hlen2 : s2.exceptionList.length = exceptionListSize := by
          rw [hs2, length_setExc, hlen1]
        have hAt2 : ∀ k, excAt s2 k =
            if k = i then
              { code := (excAt s i).code, msg := (excAt s i).msg
                cause := (excAt s i).cause, used := true, thrown := true
                isCause := false, thread := t }
            else excAt s k := by
          intro k
          rw [hs2, excAt_setExc]
          by_cases hk : k = i
          · rw [if_pos ⟨hk, by rw [hlen1]; exact hi⟩, if_pos hk]
            rw [hAt1 i, if_pos rfl]
          · rw [if_neg (fun hc0 => hk hc0.1), hAt1 k, if_neg hk, if_neg hk]
        have hlen3 : (attachCause s2 cause).exceptionList.length = exceptionListSize := by
          cases cause with
          | none => exact hlen2
          | some c => rw [attachCause, length_setExc]; exact hlen2
        have hAt3 : ∀ k, excAt (attachCause s2 cause) k =
            if k = i then
              { code := (excAt s i).code, msg := (excAt s i).msg
                cause := (excAt s i).cause, used := true, thrown := true
                isCause := false, thread := t }
            else if cause = some k then { excAt s k with isCause := true }
            else excAt s k := by
          intro k
          cases cause with
          | none =>
              rw [attachCause, hAt2 k]
              by_cases hk : k = i <;> simp [hk]
          | some c =>
              have hcfacts : c < exceptionListSize ∧ (excAt s c).used := by
                rcases checkCause_none s (some c) hcc with h0 | ⟨c', hc1, hc2, hc3, _⟩
                · cases h0
                · cases Option.some.inj hc1
                  exact ⟨hc2, hc3⟩
              have hcine : c ≠ i := fun hc0 => hiu (hc0 ▸ hcfacts.2)
              rw [attachCause, excAt_setExc]
              by_cases hk : k = c
              · rw [if_pos ⟨hk, by rw [hlen2]; exact hcfacts.1⟩]
                have he1 : excAt s2 c = excAt s c := by rw [hAt2 c, if_neg hcine]
                rw [he1]
                rw [if_neg (fun h0 : k = i => hcine (hk.symm.trans h0))]
                rw [if_pos (by rw [hk])]
                rw [hk]
              · rw [if_neg (fun hc0 => hk hc0.1), hAt2 k]
                by_cases hki : k = i
                · rw [if_pos hki, if_pos hki]
                · rw [if_neg hki, if_neg hki,
                    if_neg (fun hc0 => hk (Option.some.inj hc0).symm)]
        have henv2 : s2.envList = s.envList := by
          rw [hs2, envList_setExc, hs1, envList_setExc]
        have hglS : getLastEnvEntry s t = some j := by
          rw [← getLastEnvEntry_congr s s2 henv2 t]
          exact hgl
        refine ⟨hi, hiu, rfl, hglS, ?_, ?_, ?_⟩
        · rw [← hp1, envList_setExc, envList_attachCause, hs2, envList_setExc,
            hs1, envList_setExc]
        · rw [← hp1, length_setExc]
          exact hlen3
        · intro k
          rw [← hp1, excAt_setExc]
          by_cases hk : k = i
          · rw [if_pos ⟨hk, by rw [hlen3]; exact hi⟩]
            rw [hAt3 i, if_pos rfl]
            subst hk
            rw [if_pos rfl]
          · rw [if_neg (fun hc0 => hk hc0.1), hAt3 k, if_neg hk, if_neg hk]
  · rw [hcc] at h
    cases h

theorem exFree_spec (s : ExState) (e : Nat) (s' : ExState)
    (h : exFree s e = .ok s') :
    e < exceptionListSize ∧ (excAt s e).used ∧ ¬(excAt s e).isCause ∧
    ¬(excAt s e).thrown ∧ s' = freeChain s exceptionListSize (some e) := by
  rw [exFree, getExceptionEntry] at h
  by_cases he : e < exceptionListSize
  · rw [if_pos he] at h
    dsimp only at h
    by_cases h1 : ¬(excAt s e).used
    · rw [if_pos h1] at h; cases h
    · rw [if_neg h1] at h
      by_cases h2 : (excAt s e).isCause
      · rw [if_pos h2] at h; cases h
      · rw [if_neg h2] at h
        by_cases h3 : (excAt s e).thrown
        · rw [if_pos h3] at h; cases h
        · rw [if_neg h3] at h
          exact ⟨he, Decidable.not_not.mp h1, h2, h3, (Except.ok.inj h).symm⟩
  · rw [if_neg he] at h; cases h

theorem exFree_violation (s : ExState) (e : Nat) (he : e < exceptionListSize)
    (hu : (excAt s e).used) (hbad : (excAt s e).isCause ∨ (excAt s e).thrown) :
    exFree s e = .error CError.assertFail := by
  rw [exFree, getExceptionEntry, if_pos he]
  dsimp only
  rw [if_neg (fun hc => hc hu)]
  by_cases h2 : (excAt s e).isCause
  · rw [if_pos h2]
  · rw [if_neg h2]
    rcases hbad with hb | hb
    · exact absurd hb h2
    · rw [if_pos hb]

theorem clearUsed_at (s : ExState) (i k : Nat) :
    excAt (setExc s i { excAt s i with used := false }) k =
      if k = i then { excAt s k with used := false } else excAt s k := by
  rw [excAt_setExc]
  by_cases hk : k = i
  · rw [if_pos hk]
    by_cases hl : i < s.exceptionList.length
    · rw [if_pos ⟨hk, hl⟩, hk]
    · rw [if_neg (fun hc => hl hc.2)]
      rw [hk, excAt_default s i (Nat.le_of_not_lt hl)]
      rfl
  · rw [if_neg (fun hc => hk hc.1), if_neg hk]

theorem clearUsed_cause (s : ExState) (i : Nat) :
    ∀ k, (excAt (setExc s i { excAt s i with used := false }) k).cause =
      (excAt s k).cause := by
  intro k
  rw [clearUsed_at]
  by_cases hk : k = i
  · rw [if_pos hk]
  · rw [if_neg hk]

theorem envList_freeChain :
    ∀ (fuel : Nat) (s : ExState) (o : Option Nat),
      (freeChain s fuel o).envList = s.envList := by
  intro fuel
  induction fuel with
  | zero => intro s o; cases o <;> rfl
  | succ m ih =>
      intro s o
      cases o with
      | none => rfl
      | some i => rw [freeChain]; exact ih _ _

theorem length_freeChain :
    ∀ (fuel : Nat) (s : ExState) (o : Option Nat),
      (freeChain s fuel o).exceptionList.length = s.exceptionList.length := by
  intro fuel
  induction fuel with
  | zero => intro s o; cases o <;> rfl
  | succ m ih =>
      intro s o
      cases o with
      | none => rfl
      | some i =>
          rw [freeChain]
          rw [ih _ _]
          exact length_setExc s i _

theorem excAt_freeChain :
    ∀ (fuel : Nat) (s : ExState) (o : Option Nat) (k : Nat),
      excAt (freeChain s fuel o) k =
        if k ∈ causeChainList s fuel o then { excAt s k with used := false }
        else excAt s k := by
  intro fuel
  induction fuel with
  | zero =>
      intro s o k
      cases o <;> simp [freeChain, causeChainList]
  | succ m ih =>
      intro s o k
      cases o with
      | none => simp [freeChain, causeChainList]
      | some i =>
          rw [freeChain, causeChainList]
          have hcl : causeChainList (setExc s i { excAt s i with used := false })
              m (excAt (setExc s i { excAt s i with used := false }) i).cause =
              causeChainList s m (excAt s i).cause := by
            rw [causeChainList_congr s _ (clearUsed_cause s i) m, clearUsed_cause]
          rw [ih _ _ k, hcl, clearUsed_at]
          by_cases ht : k ∈ causeChainList s m (excAt s i).cause
          · rw [if_pos ht, if_pos (List.mem_cons_of_mem _ ht)]
            by_cases hk : k = i
            · rw [if_pos hk]
            · rw [if_neg hk]
          · rw [if_neg ht]
            by_cases hk : k = i
            · rw [if_pos hk, if_pos (by rw [hk]; exact List.mem_cons_self _ _)]
            · rw [if_neg hk, if_neg (by
                intro hc
                rcases List.mem_cons.mp hc with hc | hc
                · exact hk hc
                · exact ht hc)]

theorem chain_pred (s : ExState) :
    ∀ (fuel i r : Nat), r ∈ causeChainList s fuel (some i) →
      r = i ∨ ∃ p ∈ causeChainList s fuel (some i), (excAt s p).cause = some r := by
  intro fuel
  induction fuel with
  | zero => intro i r hr; simp [causeChainList] at hr
  | succ m ih =>
      intro i r hr
      rw [causeChainList] at hr
      rcases List.mem_cons.mp hr with rfl | hr
      · exact Or.inl rfl
      · rcases hc : (excAt s i).cause with _ | c
        · rw [hc] at hr
          simp [causeChainList] at hr
        · rw [hc] at hr
          rcases ih c r hr with rfl | ⟨p, hp1, hp2⟩
          · refine Or.inr ⟨i, List.mem_cons_self _ _, hc⟩
          · refine Or.inr ⟨p, ?_, hp2⟩
            rw [causeChainList, hc]
            exact List.mem_cons_of_mem _ hp1

theorem causeRefCount_le (s s' : ExState)
    (hp : ∀ k, (excAt s' k).used = true → (excAt s k).used = true)
    (hc : ∀ k, (excAt s' k).cause = (excAt s k).cause) (r : Nat) :
    causeRefCount s' r ≤ causeRefCount s r := by
  rw [causeRefCount, causeRefCount, countP_range_eq_card, countP_range_eq_card]
  refine Finset.card_le_card ?_
  intro k hk
  rcases Finset.mem_filter.mp hk with ⟨hk1, hk2⟩
  simp only [Bool.and_eq_true, beq_iff_eq] at hk2
  refine Finset.mem_filter.mpr ⟨hk1, ?_⟩
  simp only [Bool.and_eq_true, beq_iff_eq]
  exact ⟨hp k hk2.1, (hc k) ▸ hk2.2⟩

theorem ExcInv_allocAttach (s s' : ExState) (x : Nat) (co : Option Nat)
    (ent : ExceptionEntry) (hI : ExcInv s)
    (hx : x < exceptionListSize) (hxu : ¬(excAt s x).used)
    (hco : co = none ∨ ∃ c, co = some c ∧ c < exceptionListSize ∧
      (excAt s c).used ∧ ¬(excAt s c).isCause)
    (hent : ent.used = true ∧ ent.cause = co ∧ ent.isCause = false)
    (hlen : s'.exceptionList.length = exceptionListSize)
    (hAt : ∀ k, excAt s' k =
      if k = x then ent
      else if co = some k then { excAt s k with isCause := true }
      else excAt s k) : ExcInv s' := by
  rcases hI with ⟨h1, h2, h3, h4, h5, h6⟩
  have hoff : ∀ k, k ≠ x →
      (excAt s' k).used = (excAt s k).used ∧
      (excAt s' k).cause = (excAt s k).cause ∧
      (excAt s' k).thrown = (excAt s k).thrown := by
    intro k hk
    rw [hAt k, if_neg hk]
    by_cases hck : co = some k
    · rw [if_pos hck]
      exact ⟨rfl, rfl, rfl⟩
    · rw [if_neg hck]
      exact ⟨rfl, rfl, rfl⟩
  have hoffC : ∀ k, k ≠ x → (excAt s' k).cause = (excAt s k).cause :=
    fun k hk => (hoff k hk).2.1
  have hx' : excAt s' x = ent := by rw [hAt x, if_pos rfl]
  have hchain_off : ∀ k, k < exceptionListSize → (excAt s k).used →
      x ∉ causeChainList s exceptionListSize (some k) := by
    intro k hk hu hmem
    exact hxu (chain_used s h2 exceptionListSize k hk hu x hmem).2
  have hbx : (excAt s x).used = false := by
    cases hb2 : (excAt s x).used
    · rfl
    · exact absurd hb2 hxu
  have hcount : ∀ r, causeRefCount s' r =
      causeRefCount s r + (if co = some r then 1 else 0) := by
    intro r
    have hupd := countP_range_update exceptionListSize x hx
      (fun i => (excAt s i).used && ((excAt s i).cause == some r))
      (fun i => (excAt s' i).used && ((excAt s' i).cause == some r))
      (fun i hi => by
        simp only
        rw [(hoff i hi).1, (hoff i hi).2.1])
    dsimp only at hupd
    rw [causeRefCount, causeRefCount]
    by_cases hcr : co = some r
    · have hq : ((excAt s' x).used && ((excAt s' x).cause == some r)) = true := by
        rw [hx', hent.1, hent.2.1, hcr]
        simp
      rw [hq, hbx, Bool.false_and] at hupd
      simp at hupd
      rw [if_pos hcr]
      omega
    · have hq : ((excAt s' x).used && ((excAt s' x).cause == some r)) = false := by
        rw [hx', hent.1, hent.2.1, Bool.true_and]
        simpa using hcr
      rw [hq, hbx, Bool.false_and] at hupd
      simp at hupd
      rw [if_neg hcr]
      omega
  have hcx : ∀ c, co = some c → c ≠ x := by
    intro c hc hcxe
    rcases hco with h0 | ⟨c', hc1, _, hc2, _⟩
    · rw [h0] at hc; cases hc
    · rw [hc1] at hc
      cases Option.some.inj hc
      exact hxu (hcxe ▸ hc2)
  refine ⟨hlen, ?_, ?_, ?_, ?_, ?_⟩
  · -- cause pointers of used records designate used records with the bit set
    intro k hk hu r hc
    by_cases hkx : k = x
    · rw [hkx, hx', hent.2.1] at hc
      rcases hco with h0 | ⟨c, hc1, hc2, hc3, _⟩
      · rw [h0] at hc; cases hc
      · rw [hc1] at hc
        cases Option.some.inj hc
        have hrx : r ≠ x := hcx r hc1
        refine ⟨hc2, ?_, ?_⟩
        · rw [hAt r, if_neg hrx, hc1, if_pos rfl]
          exact hc3
        · rw [hAt r, if_neg hrx, hc1, if_pos rfl]
    · rw [(hoff k hkx).1] at hu
      rw [(hoff k hkx).2.1] at hc
      rcases h2 k hk hu r hc with ⟨hr1, hr2, hr3⟩
      have hrx : r ≠ x := fun he => hxu (he ▸ hr2)
      refine ⟨hr1, ?_, ?_⟩
      · rw [(hoff r hrx).1]
        exact hr2
      · rw [hAt r, if_neg hrx]
        by_cases hcr : co = some r
        · rw [if_pos hcr]
        · rw [if_neg hcr]
          exact hr3
  · -- reference counts
    intro r hr
    rw [hcount r]
    by_cases hcr : co = some r
    · rw [if_pos hcr]
      rcases hco with h0 | ⟨c, hc1, hc2, hc3, hc4⟩
      · rw [h0] at hcr; cases hcr
      · rw [hc1] at hcr
        cases Option.some.inj hcr
        have hz : causeRefCount s r = 0 := by
          have := h3 r hr
          rw [if_neg hc4] at this
          omega
        rw [hz]
        have hrx : r ≠ x := hcx r hc1
        rw [hAt r, if_neg hrx, hc1, if_pos rfl]
        simp
    · rw [if_neg hcr]
      by_cases hrx : r = x
      · have hz : causeRefCount s r = 0 := by
          refine causeRefCount_zero s r ?_
          intro k hk hc
          exact hxu (hrx ▸ (h2 k hk hc.1 r hc.2).2.1)
        rw [hz, hrx, hx', hent.2.2]
        simp
      · rw [hAt r, if_neg hrx, if_neg hcr]
        exact Nat.le_trans (by omega) (h3 r hr)
  · -- unused records are not thrown
    intro k hk hu
    by_cases hkx : k = x
    · rw [hkx, hx', hent.1] at hu
      exact absurd rfl hu
    · rw [(hoff k hkx).1] at hu
      rw [(hoff k hkx).2.2]
      exact h4 k hk hu
  · -- cause chains terminate and are duplicate-free
    intro k hk hu
    have h16 : exceptionListSize = (exceptionListSize - 1) + 1 := rfl
    by_cases hkx : k = x
    · rcases hco with h0 | ⟨c, hc1, hc2, hc3, _⟩
      · have hcx0 : (excAt s' k).cause = none := by rw [hkx, hx', hent.2.1, h0]
        have hstep : stepCause s' (some k) = none := by
          rw [show stepCause s' (some k) = (excAt s' k).cause from rfl, hcx0]
        constructor
        · rw [h16, iterCause, hstep, iterCause_of_none]
        · rw [h16, causeChainList, hcx0]
          simp [causeChainList]
      · rcases h5 c hc2 hc3 with ⟨hit, hnd⟩
        have hLsub : ∀ j ∈ causeChainList s exceptionListSize (some c),
            j < exceptionListSize ∧ (excAt s j).used :=
          chain_used s h2 exceptionListSize c hc2 hc3
        have hxL : x ∉ causeChainList s exceptionListSize (some c) :=
          hchain_off c hc2 hc3
        have hlenL : (causeChainList s exceptionListSize (some c)).length ≤
            exceptionListSize - 1 := by
          have hcard : (causeChainList s exceptionListSize (some c)).toFinset.card =
              (causeChainList s exceptionListSize (some c)).length :=
            List.toFinset_card_of_nodup hnd
          have hsub : (causeChainList s exceptionListSize (some c)).toFinset ⊆
              (Finset.range exceptionListSize).erase x := by
            intro j hj
            rw [List.mem_toFinset] at hj
            exact Finset.mem_erase.mpr
              ⟨fun he => hxL (he ▸ hj), Finset.mem_range.mpr (hLsub j hj).1⟩
          have hec : ((Finset.range exceptionListSize).erase x).card =
              exceptionListSize - 1 := by
            rw [Finset.card_erase_of_mem (Finset.mem_range.mpr hx),
              Finset.card_range]
          have hcc := Finset.card_le_card hsub
          rw [hcard, hec] at hcc
          exact hcc
        have hit15 : iterCause s (exceptionListSize - 1) (some c) = none := by
          rcases iterCause_chain_len s exceptionListSize (some c) hit with ⟨ha, _⟩
          exact iterCause_none_mono s _ _ _ ha hlenL
        have hst : causeChainList s (exceptionListSize - 1) (some c) =
            causeChainList s exceptionListSize (some c) := by
          rcases iterCause_chain_len s exceptionListSize (some c) hit with ⟨ha, hb⟩
          exact (chain_stable s _ _ ha _ hlenL).trans (chain_stable s _ _ ha _ hb).symm
        have hxL15 : x ∉ causeChainList s (exceptionListSize - 1) (some c) := by
          rw [hst]; exact hxL
        rcases chain_avoid s s' x hoffC (exceptionListSize - 1) (some c) hxL15
          with ⟨hca, hia⟩
        have hcx0 : (excAt s' k).cause = some c := by rw [hkx, hx', hent.2.1, hc1]
        have hstep : stepCause s' (some k) = some c := by
          rw [show stepCause s' (some k) = (excAt s' k).cause from rfl, hcx0]
        constructor
        · rw [h16, iterCause, hstep, hia, hit15]
        · rw [h16, causeChainList, hcx0, hca, hst, List.nodup_cons]
          exact ⟨by rw [hkx]; exact hxL, hnd⟩
    · rw [(hoff k hkx).1] at hu
      have hxLk : x ∉ causeChainList s exceptionListSize (some k) :=
        hchain_off k hk hu
      rcases chain_avoid s s' x hoffC exceptionListSize (some k) hxLk
        with ⟨hca, hia⟩
      rcases h5 k hk hu with ⟨hit, hnd⟩
      rw [hca, hia]
      exact ⟨hit, hnd⟩
  · -- a used record with the is-a-cause bit set is referenced
    intro r hr hu hic
    rw [hcount r]
    by_cases hcr : co = some r
    · rw [if_pos hcr]
      omega
    · rw [if_neg hcr]
      by_cases hrx : r = x
      · rw [hrx, hx', hent.2.2] at hic
        cases hic
      · rw [(hoff r hrx).1] at hu
        have hic0 : (excAt s r).isCause = true := by
          have := hAt r
          rw [if_neg hrx, if_neg hcr] at this
          rw [this] at hic
          exact hic
        have := h6 r hr hu hic0
        omega

theorem chain_succ (s : ExState) :
    ∀ (fuel : Nat) (o : Option Nat), iterCause s fuel o = none →
      ∀ p ∈ causeChainList s fuel o, ∀ r, (excAt s p).cause = some r →
        r ∈ causeChainList s fuel o := by
  intro fuel
  induction fuel with
  | zero =>
      intro o h p hp
      cases o with
      | none => simp [causeChainList] at hp
      | some i => cases h
  | succ m ih =>
      intro o h p hp r hc
      cases o with
      | none => simp [causeChainList] at hp
      | some i =>
          rw [iterCause] at h
          have hstep : stepCause s (some i) = (excAt s i).cause := rfl
          rw [hstep] at h
          rw [causeChainList] at hp ⊢
          rcases List.mem_cons.mp hp with rfl | hp
          · rw [hc] at h ⊢
            have hm1 : 1 ≤ m := by
              rcases m with _ | m'
              · rw [iterCause] at h
                cases h
              · omega
            rcases m with _ | m'
            · omega
            · rw [causeChainList]
              exact List.mem_cons_of_mem _ (List.mem_cons_self _ _)
          · exact List.mem_cons_of_mem _ (ih _ h p hp r hc)

theorem ExcInv_free (s : ExState) (e : Nat) (hI : ExcInv s)
    (he : e < exceptionListSize) (hu : (excAt s e).used)
    (hnc : ¬(excAt s e).isCause)
    (hthr : ∀ i ∈ causeChainList s exceptionListSize (some e),
      ¬(excAt s i).thrown) :
    ExcInv (freeChain s exceptionListSize (some e)) := by
  rcases hI with ⟨h1, h2, h3, h4, h5, h6⟩
  set s' := freeChain s exceptionListSize (some e) with hs'
  set L := causeChainList s exceptionListSize (some e) with hL
  have hAt : ∀ k, excAt s' k =
      if k ∈ L then { excAt s k with used := false } else excAt s k := by
    intro k
    rw [hs', excAt_freeChain, hL]
  have hlen' : s'.exceptionList.length = exceptionListSize := by
    rw [hs', length_freeChain]
    exact h1
  have hC : ∀ k, (excAt s' k).cause = (excAt s k).cause := by
    intro k
    rw [hAt k]
    by_cases hk : k ∈ L
    · rw [if_pos hk]
    · rw [if_neg hk]
  have hB : ∀ k, (excAt s' k).isCause = (excAt s k).isCause := by
    intro k
    rw [hAt k]
    by_cases hk : k ∈ L
    · rw [if_pos hk]
    · rw [if_neg hk]
  have hT : ∀ k, (excAt s' k).thrown = (excAt s k).thrown := by
    intro k
    rw [hAt k]
    by_cases hk : k ∈ L
    · rw [if_pos hk]
    · rw [if_neg hk]
  have hU : ∀ k, (excAt s' k).used = true → (excAt s k).used = true ∧ k ∉ L := by
    intro k hk
    rw [hAt k] at hk
    by_cases hm : k ∈ L
    · rw [if_pos hm] at hk
      cases hk
    · rw [if_neg hm] at hk
      exact ⟨hk, hm⟩
  have hLprop : ∀ j ∈ L, j < exceptionListSize ∧ (excAt s j).used :=
    chain_used s h2 exceptionListSize e he hu
  have hnotL : ∀ k, k < exceptionListSize → (excAt s k).used → k ∉ L →
      ∀ r, (excAt s k).cause = some r → r ∉ L := by
    intro k hk hku hkL r hc hrL
    rcases chain_pred s exceptionListSize e r hrL with rfl | ⟨p, hp1, hp2⟩
    · have hpos := causeRefCount_pos s r k hk hku hc
      have := h3 r he
      rw [if_neg hnc] at this
      omega
    · have hpne : p ≠ k := fun hpe => hkL (hpe ▸ hp1)
      have hpprop := hLprop p hp1
      have h2c := causeRefCount_two s r p k hpne hpprop.1 hk hpprop.2 hp2 hku hc
      have hr16 := (h2 k hk hku r hc).1
      have := h3 r hr16
      split at this <;> omega
  have hchains : (∀ fuel o, iterCause s' fuel o = iterCause s fuel o) ∧
      (∀ fuel o, causeChainList s' fuel o = causeChainList s fuel o) :=
    ⟨iterCause_congr s s' hC, causeChainList_congr s s' hC⟩
  have hterm : iterCause s exceptionListSize (some e) = none := (h5 e he hu).1
  refine ⟨hlen', ?_, ?_, ?_, ?_, ?_⟩
  · intro k hk hku r hc
    rcases hU k hku with ⟨hku0, hkL⟩
    rw [hC k] at hc
    rcases h2 k hk hku0 r hc with ⟨hr1, hr2, hr3⟩
    refine ⟨hr1, ?_, ?_⟩
    · rw [hAt r, if_neg (hnotL k hk hku0 hkL r hc)]
      exact hr2
    · rw [hB r]
      exact hr3
  · intro r hr
    have hle : causeRefCount s' r ≤ causeRefCount s r :=
      causeRefCount_le s s' (fun k hk => (hU k hk).1) hC r
    rw [hB r]
    exact Nat.le_trans hle (h3 r hr)
  · intro k hk hku
    rw [hT k]
    rw [hAt k] at hku
    by_cases hm : k ∈ L
    · exact hthr k (hL ▸ hm)
    · rw [if_neg hm] at hku
      exact h4 k hk hku
  · intro k hk hku
    rcases hU k hku with ⟨hku0, _⟩
    rw [hchains.1, hchains.2]
    exact h5 k hk hku0
  · intro r hr hru hric
    rcases hU r hru with ⟨hru0, hrL⟩
    rw [hB r] at hric
    have hcnt := h6 r hr hru0 hric
    have hcnt2 : 0 < List.countP
        (fun i => (excAt s i).used && ((excAt s i).cause == some r))
        (List.range exceptionListSize) := by
      rw [causeRefCount] at hcnt
      omega
    rcases List.countP_pos_iff.mp hcnt2 with ⟨k, hkmem, hkpred⟩
    simp only [Bool.and_eq_true, beq_iff_eq] at hkpred
    have hk16 : k < exceptionListSize := List.mem_range.mp hkmem
    have hkL : k ∉ L := by
      intro hkmemL
      exact hrL (hL ▸ chain_succ s exceptionListSize (some e) hterm k
        (hL ▸ hkmemL) r hkpred.2)
    refine causeRefCount_pos s' r k hk16 ?_ ?_
    · rw [hAt k, if_neg hkL]
      exact hkpred.1
    · rw [hC k]
      exact hkpred.2

theorem envAt_init (i : Nat) : envAt initState i = initEnvEntry := by
  rw [envAt]
  show (List.replicate envListSize initEnvEntry).getD i initEnvEntry = initEnvEntry
  rcases Nat.lt_or_ge i envListSize with h | h
  · simp [List.getD, List.getElem?_replicate, h]
  · rw [List.getD, List.get?_eq_none.mpr (by simpa using h)]
    rfl

theorem excAt_init (i : Nat) : excAt initState i = initExcEntry := by
  rw [excAt]
  show (List.replicate exceptionListSize initExcEntry).getD i initExcEntry = initExcEntry
  rcases Nat.lt_or_ge i exceptionListSize with h | h
  · simp [List.getD, List.getElem?_replicate, h]
  · rw [List.getD, List.get?_eq_none.mpr (by simpa using h)]
    rfl

theorem StateInv_init : StateInv initState := by
  have henv : ∀ i, ¬(envAt initState i).used := by
    intro i
    rw [envAt_init]
    exact fun hc => by cases hc
  have hexc : ∀ i, ¬(excAt initState i).used := by
    intro i
    rw [excAt_init]
    exact fun hc => by cases hc
  constructor
  · refine ⟨by rfl, ?_, ?_⟩
    · intro i hi j hj hui
      exact absurd hui (henv i)
    · intro i hi hui
      exact absurd hui (henv i)
  · refine ⟨by rfl, ?_, ?_, ?_, ?_, ?_⟩
    · intro i hi hui
      exact absurd hui (hexc i)
    · intro r hr
      rw [causeRefCount_zero initState r (fun k hk hc => hexc k hc.1)]
      exact Nat.zero_le _
    · intro i hi hui hth
      rw [excAt_init] at hth
      cases hth
    · intro i hi hui
      exact absurd hui (hexc i)
    · intro r hr hru
      exact absurd hru (hexc r)

theorem StateInv_step (s s' : ExState) (hI : StateInv s) (h : Step s s') :
    StateInv s' := by
  rcases hI with ⟨hE, hX⟩
  cases h with
  | push tv sv uv hp =>
      refine ⟨EnvInv_push s tv s' uv hE hp, ?_⟩
      rcases pushCallingEnv_spec s tv s' uv hp with ⟨hu, hun, hs⟩
      refine ExcInv_congr s s' ?_ hX
      rw [hs]
      rfl
  | pop tv sv rv hp =>
      rcases popCallingEnv_spec s tv s' rv hp with ⟨j, hgl, hbr⟩
      have hEr : EnvInv (setEnv s j { envAt s j with used := false }) :=
        EnvInv_release s tv j hE hgl
      rcases hbr with ⟨hr, hs, hft⟩ | ⟨k, hr, hft, hs⟩
      · refine ⟨by rw [hs]; exact hEr, ?_⟩
        refine ExcInv_congr s s' ?_ hX
        rw [hs]
        rfl
      · rcases findThrown_some _ tv _ k hft with ⟨hkm, hku, hkth, hkt⟩
        have hk16 : k < exceptionListSize := List.mem_range.mp hkm
        have henv' : s'.envList =
            (setEnv s j { envAt s j with used := false }).envList := by
          rw [hs]
          rfl
        refine ⟨EnvInv_congr _ s' henv' hEr, ?_⟩
        have hku' : (excAt s k).used := hku
        refine ExcInv_flags s s' ?_ ?_ ?_ hX
        · rw [hs, length_setExc]
          show s.exceptionList.length = exceptionListSize
          exact hX.1
        · intro m
          rw [hs, excAt_setExc]
          by_cases hm : m = k
          · have hmlen : k < (setEnv s j { envAt s j with
                used := false }).exceptionList.length := by
              show k < s.exceptionList.length
              rw [hX.1]
              exact hk16
            rw [if_pos ⟨hm, hmlen⟩, hm]
            exact ⟨rfl, rfl, rfl⟩
          · rw [if_neg (fun hc => hm hc.1)]
            exact ⟨rfl, rfl, rfl⟩
        · intro m hmu
          rw [hs, excAt_setExc]
          by_cases hm : m = k
          · exact absurd (hm ▸ hku') hmu
          · rw [if_neg (fun hc => hm hc.1)]
            rfl
  | alloc codev causev fmtv sv iv ha =>
      rcases exAlloc_spec s codev causev fmtv s' iv hX.1 ha
        with ⟨hi, hiu, hcc, henv, hlen, hAt⟩
      refine ⟨EnvInv_congr s s' henv hE, ?_⟩
      refine ExcInv_allocAttach s s' iv causev _ hX hi hiu ?_ ⟨rfl, rfl, rfl⟩ hlen hAt
      rcases checkCause_none s causev hcc with h0 | ⟨c, hc1, hc2, hc3, hc4, _⟩
      · exact Or.inl h0
      · exact Or.inr ⟨c, hc1, hc2, hc3, hc4⟩
  | throw tv codev causev fmtv sv iv jv ha =>
      rcases exThrow_spec s tv codev causev fmtv s' iv jv hX.1 ha
        with ⟨hi, hiu, hcc, hgl, henv, hlen, hAt⟩
      refine ⟨EnvInv_congr s s' henv hE, ?_⟩
      refine ExcInv_allocAttach s s' iv causev _ hX hi hiu ?_ ⟨rfl, rfl, rfl⟩ hlen hAt
      rcases checkCause_none s causev hcc with h0 | ⟨c, hc1, hc2, hc3, hc4, _⟩
      · exact Or.inl h0
      · exact Or.inr ⟨c, hc1, hc2, hc3, hc4⟩
  | rethrow tv ev sv jv ha =>
      rcases exRepeat_spec s tv ev s' jv ha with ⟨he, heu, heth, hgl, hs⟩
      have henv : s'.envList = s.envList := by
        rw [hs]
        rfl
      refine ⟨EnvInv_congr s s' henv hE, ?_⟩
      refine ExcInv_flags s s' ?_ ?_ ?_ hX
      · rw [hs, length_setExc]
        exact hX.1
      · intro m
        rw [hs, excAt_setExc]
        by_cases hm : m = ev
        · have hmlen : ev < s.exceptionList.length := by
            rw [hX.1]
            exact he
          rw [if_pos ⟨hm, hmlen⟩, hm]
          exact ⟨rfl, rfl, rfl⟩
        · rw [if_neg (fun hc => hm hc.1)]
          exact ⟨rfl, rfl, rfl⟩
      · intro m hmu
        rw [hs, excAt_setExc]
        by_cases hm : m = ev
        · exact absurd (hm ▸ heu) hmu
        · rw [if_neg (fun hc => hm hc.1)]
  | free ev sv ha hguard =>
      rcases exFree_spec s ev s' ha with ⟨he, heu, henc, heth, hs⟩
      have henv : s'.envList = s.envList := by
        rw [hs, envList_freeChain]
      refine ⟨EnvInv_congr s s' henv hE, ?_⟩
      rw [hs]
      exact ExcInv_free s ev hX he heu henc hguard

theorem StateInv_reachable (s : ExState) (h : Reachable s) : StateInv s := by
  induction h with
  | init => exact StateInv_init
  | step s1 s2 _ hstep ih => exact StateInv_step s1 s2 ih hstep

/-- Under the environment invariant the levels of the used slots of a thread
are exactly 0, 1, ..., envCount - 1. -/
theorem env_levels_contiguous (s : ExState) (hE : EnvInv s) (t l : Nat) :
    (∃ i, i < envListSize ∧ (envAt s i).used ∧ (envAt s i).thread = t ∧
      (envAt s i).level = l) ↔ l < envCount s t := by
  rcases hE with ⟨hlen, huniq, hlev⟩
  constructor
  · rintro ⟨i, hi, hui, hti, hli⟩
    have := hlev i hi hui
    rw [hti, hli] at this
    exact this
  · intro hl
    set p := fun i => (envAt s i).used && ((envAt s i).thread == t) with hp
    set Lst := (List.range envListSize).filter p with hLst
    have hlen2 : Lst.length = envCount s t := by
      rw [hLst, envCount, List.countP_eq_length_filter]
    have hmem : ∀ i ∈ Lst, i < envListSize ∧ (envAt s i).used ∧
        (envAt s i).thread = t := by
      intro i hi
      rcases List.mem_filter.mp hi with ⟨hr, hpi⟩
      rw [hp] at hpi
      simp only [Bool.and_eq_true, beq_iff_eq] at hpi
      exact ⟨List.mem_range.mp hr, hpi.1, hpi.2⟩
    have hnd : Lst.Nodup := List.Nodup.filter p (List.nodup_range _)
    set Lv := Lst.map (fun i => (envAt s i).level) with hLv
    have hndv : Lv.Nodup := by
      rw [hLv]
      refine List.Nodup.map_on ?_ hnd
      intro x hx y hy hxy
      rcases hmem x hx with ⟨hx1, hx2, hx3⟩
      rcases hmem y hy with ⟨hy1, hy2, hy3⟩
      exact huniq x hx1 y hy1 hx2 hy2 (hx3.trans hy3.symm) hxy
    have hsub : Lv.toFinset ⊆ Finset.range (envCount s t) := by
      intro v hv
      rw [List.mem_toFinset, hLv, List.mem_map] at hv
      rcases hv with ⟨i, hi, hvi⟩
      rcases hmem i hi with ⟨hi1, hi2, hi3⟩
      have := hlev i hi1 hi2
      rw [hi3] at this
      rw [Finset.mem_range, ← hvi]
      exact this
    have hcardv : Lv.toFinset.card = envCount s t := by
      rw [List.toFinset_card_of_nodup hndv, hLv, List.length_map, hlen2]
    have heq : Lv.toFinset = Finset.range (envCount s t) :=
      Finset.eq_of_subset_of_card_le hsub (by rw [hcardv, Finset.card_range])
    have hlv : l ∈ Lv.toFinset := by
      rw [heq]
      exact Finset.mem_range.mpr hl
    rw [List.mem_toFinset, hLv, List.mem_map] at hlv
    rcases hlv with ⟨i, hi, hvi⟩
    rcases hmem i hi with ⟨hi1, hi2, hi3⟩
    exact ⟨i, hi1, hi2, hi3, hvi⟩

/-- The slot found by getLastEnvEntry has level envCount - 1. -/
theorem getLast_level (s : ExState) (hE : EnvInv s) (t j : Nat)
    (hgl : getLastEnvEntry s t = some j) :
    (envAt s j).level = envCount s t - 1 := by
  rcases getLastEnvEntry_some s t j hgl with ⟨hj, hjm, hjmax⟩
  have hlt : (envAt s j).level < envCount s t :=
    (env_levels_contiguous s hE t (envAt s j).level).mp ⟨j, hj, hjm.1, hjm.2, rfl⟩
  have hone : 1 ≤ envCount s t := by omega
  rcases (env_levels_contiguous s hE t (envCount s t - 1)).mpr (by omega)
    with ⟨i, hi1, hi2, hi3, hi4⟩
  have := hjmax i hi1 ⟨hi2, hi3⟩
  omega

theorem demoPush_eq : pushCallingEnv initState 0 = some (demoPush, 0) := by decide

theorem demoPush_reachable : Reachable demoPush :=
  Reachable.step _ _ Reachable.init (Step.push initState 0 demoPush 0 demoPush_eq)

theorem demoAllocA_eq : exAlloc initState 3 none [65] = .ok (demoAllocA, 0) := rfl

theorem demoAllocA_reachable : Reachable demoAllocA :=
  Reachable.step _ _ Reachable.init
    (Step.alloc initState 3 none [65] demoAllocA 0 demoAllocA_eq)

theorem demoAllocB_eq : exAlloc demoAllocA 4 (some 0) [66] = .ok (demoAllocB, 1) := rfl

theorem demoAllocB_reachable : Reachable demoAllocB :=
  Reachable.step _ _ demoAllocA_reachable
    (Step.alloc demoAllocA 4 (some 0) [66] demoAllocB 1 demoAllocB_eq)

theorem demoPushAlloc_eq : exAlloc demoPush 3 none [65] = .ok (demoPushAlloc, 0) := rfl

theorem demoPushAlloc_reachable : Reachable demoPushAlloc :=
  Reachable.step _ _ demoPush_reachable
    (Step.alloc demoPush 3 none [65] demoPushAlloc 0 demoPushAlloc_eq)

theorem demoThrow_eq : exThrow demoPush 0 5 none [66] = .ok (demoThrow, 0, 0) := rfl

theorem demoThrow_reachable : Reachable demoThrow :=
  Reachable.step _ _ demoPush_reachable
    (Step.throw demoPush 0 5 none [66] demoThrow 0 0 demoThrow_eq)

theorem demoPop_eq : popCallingEnv demoThrow 0 = some (demoPop, some 0) := by decide

theorem demoRepeat_eq : exRepeat demoPushAlloc 0 0 = .ok (demoRepeat, 0) := rfl

theorem demoRepeatPop_eq : popCallingEnv demoRepeat 0 = some (demoRepeatPop, some 0) := by
  decide

theorem demoPop_reachable : Reachable demoPop :=
  Reachable.step _ _ demoThrow_reachable
    (Step.pop demoThrow 0 demoPop (some 0) demoPop_eq)

/-! ### The claims -/

/-- C1: in a reachable state in which thread T owns n >= 1 in-use environment
slots, exThrow on T transfers control to the slot of T with the highest
nesting level, the innermost block at level n - 1; the target slot is owned by
T and no in-use slot of T has a higher level, so control never goes to an
outer block or to a slot of another thread. -/
theorem C1_throw_targets_innermost (s : ExState) (t n code : Nat)
    (cause : Option Nat) (fmt : List Nat) (s' : ExState) (i j : Nat)
    (hreach : Reachable s) (hn : envCount s t = n) (hpos : 1 ≤ n)
    (h : exThrow s t code cause fmt = .ok (s', i, j)) :
    j < envListSize ∧ (envAt s j).used ∧ (envAt s j).thread = t ∧
    (envAt s j).level = n - 1 ∧
    ∀ k < envListSize, (envAt s k).used → (envAt s k).thread = t →
      (envAt s k).level ≤ (envAt s j).level := by
  rcases StateInv_reachable s hreach with ⟨hE, hX⟩
  rcases exThrow_spec s t code cause fmt s' i j hX.1 h with ⟨_, _, _, hgl, _⟩
  rcases getLastEnvEntry_some s t j hgl with ⟨hj, hjm, hjmax⟩
  have hlev := getLast_level s hE t j hgl
  rw [hn] at hlev
  exact ⟨hj, hjm.1, hjm.2, hlev, fun k hk hu ht => hjmax k hk ⟨hu, ht⟩⟩

theorem C1_witness :
    envCount demoPush 0 = 1 ∧ (envAt demoPush 0).used ∧
    (envAt demoPush 0).thread = 0 ∧ (envAt demoPush 0).level = 1 - 1 :=
  have h := C1_throw_targets_innermost demoPush 0 1 5 none [66] demoThrow 0 0
    demoPush_reachable (by decide) (by decide) demoThrow_eq
  ⟨by decide, h.2.1, h.2.2.1, h.2.2.2.1⟩

/-- C3: in every reachable state every pool record is the cause of at most one
in-use record; exAlloc and exThrow check that a supplied cause is allocated,
is not already the cause of another record (the is-a-cause bit) and is not in
flight, signaling a contract violation otherwise, and they set the is-a-cause
bit of the cause they attach. -/
theorem C3_at_most_one_cause (s : ExState) (hreach : Reachable s) :
    (∀ r < exceptionListSize, causeRefCount s r ≤ 1) ∧
    (∀ code fmt c, c < exceptionListSize →
      ((excAt s c).isCause ∨ ¬(excAt s c).used ∨ (excAt s c).thrown) →
      exAlloc s code (some c) fmt = .error CError.assertFail ∧
      ∀ t, exThrow s t code (some c) fmt = .error CError.assertFail) ∧
    (∀ code fmt c s' i, exAlloc s code (some c) fmt = .ok (s', i) →
      (excAt s' c).isCause) := by
  rcases StateInv_reachable s hreach with ⟨_, hX⟩
  refine ⟨?_, ?_, ?_⟩
  · intro r hr
    have := hX.2.2.1 r hr
    split at this <;> omega
  · intro code fmt c hc hbad
    have hcc : checkCause s (some c) = some CError.assertFail := by
      rw [checkCause, getExceptionEntry, if_pos hc]
      dsimp only
      by_cases h1 : ¬(excAt s c).used
      · rw [if_pos h1]
      · rw [if_neg h1]
        by_cases h2 : (excAt s c).isCause
        · rw [if_pos h2]
        · rw [if_neg h2]
          rcases hbad with hb | hb | hb
          · exact absurd hb h2
          · exact absurd hb h1
          · rw [if_pos hb]
    constructor
    · rw [exAlloc, hcc]
    · intro t
      rw [exThrow, hcc]
  · intro code fmt c s' i h
    rcases exAlloc_spec s code (some c) fmt s' i hX.1 h
      with ⟨hi, hiu, hcc, _, _, hAt⟩
    rcases checkCause_none s (some c) hcc with h0 | ⟨c', hc1, hc2, hc3, _⟩
    · cases h0
    · cases Option.some.inj hc1
      have hci : c ≠ i := fun he => hiu (he ▸ hc3)
      rw [hAt c, if_neg hci, if_pos rfl]

theorem C3_witness : causeRefCount demoAllocB 0 ≤ 1 :=
  (C3_at_most_one_cause demoAllocB demoAllocB_reachable).1 0 (by decide)

/-- C5 as stated is refuted by the code: from the initial state, where thread
0 owns no used slot, pushCallingEnv assigns the new slot level 0 and not
1 + 0. -/
theorem C5_counterexample :
    (pushCallingEnv initState 0).isSome ∧
    (pushCallingEnv initState 0).elim 0 (fun p => (envAt p.1 p.2).level) ≠
      1 + envCount initState 0 := by decide

/-- C5 amended: when a protected block is entered, pushCallingEnv assigns the
newly reserved slot a nesting level equal to the count of environment slots
currently in use and owned by the calling thread (so levels are 0-based: the
first block of a thread gets level 0), and marks the slot used with the
calling thread identity. -/
theorem C5_push_level_is_count (s : ExState) (t : Nat) (s' : ExState) (u : Nat)
    (hlen : s.envList.length = envListSize)
    (h : pushCallingEnv s t = some (s', u)) :
    (envAt s' u).used ∧ (envAt s' u).thread = t ∧
    (envAt s' u).level = envCount s t := by
  rcases pushCallingEnv_spec s t s' u h with ⟨hu, hun, hs⟩
  have he : envAt s' u = { used := true, level := envCount s t, thread := t } := by
    rw [hs, envAt_setEnv, if_pos ⟨rfl, by rw [hlen]; exact hu⟩]
  rw [he]
  exact ⟨rfl, rfl, rfl⟩

theorem C5_witness :
    (envAt demoPush 0).used ∧ (envAt demoPush 0).thread = 0 ∧
    (envAt demoPush 0).level = envCount initState 0 :=
  C5_push_level_is_count initState 0 demoPush 0 (by decide) demoPush_eq

/-- C6: in every reachable state at most one environment slot per
(thread, level) pair is in use, and a level l is occupied for a thread
exactly when l is below the number of used slots of the thread, so the levels
of each thread form the contiguous strictly increasing range 0, ...,
count - 1. -/
theorem C6_env_invariant (s : ExState) (hreach : Reachable s) :
    (∀ t l i j, i < envListSize → j < envListSize →
      (envAt s i).used → (envAt s j).used →
      (envAt s i).thread = t → (envAt s j).thread = t →
      (envAt s i).level = l → (envAt s j).level = l → i = j) ∧
    (∀ t l, (∃ i, i < envListSize ∧ (envAt s i).used ∧
      (envAt s i).thread = t ∧ (envAt s i).level = l) ↔ l < envCount s t) := by
  rcases StateInv_reachable s hreach with ⟨hE, _⟩
  refine ⟨?_, fun t l => env_levels_contiguous s hE t l⟩
  intro t l i j hi hj hui huj hti htj hli hlj
  exact hE.2.1 i hi j hj hui huj (hti.trans htj.symm) (hli.trans hlj.symm)

theorem C6_witness :
    (∃ i, i < envListSize ∧ (envAt demoPush i).used ∧
      (envAt demoPush i).thread = 0 ∧ (envAt demoPush i).level = 0) ↔
      0 < envCount demoPush 0 :=
  (C6_env_invariant demoPush demoPush_reachable).2 0 0

/-- C9: in every reachable state a pool record whose in-use flag is clear has
its thrown (in-flight) flag clear as well, which keeps allocation sound even
though allocExceptionEntry never clears the thrown bit. -/
theorem C9_unused_not_thrown (s : ExState) (hreach : Reachable s) :
    ∀ i < exceptionListSize, ¬(excAt s i).used → ¬(excAt s i).thrown := by
  rcases StateInv_reachable s hreach with ⟨_, hX⟩
  exact hX.2.2.2.1

theorem C9_witness :
    (excAt demoPop 1).used = false ∧ (excAt demoPop 1).thrown = false := by
  have h := C9_unused_not_thrown demoPop demoPop_reachable 1 (by decide) (by decide)
  exact ⟨by decide, by simpa using h⟩

theorem demoPushPop_eq : popCallingEnv demoPush 0 = some (demoPushPop, none) := by
  decide

/-- C2: popCallingEnv first releases the most recent resumption point of the
calling thread, then hands out a pool record that is in use, in flight and
owned by the calling thread with its in-flight bit cleared, so that no later
delivery on any thread returns the same throw; when no such record exists
nothing is delivered (a normal exit).  A record in flight on another thread is
never returned, since the delivered record is owned by the calling thread. -/
theorem C2_deliver_exactly_once (s : ExState) (t : Nat) (s' : ExState)
    (r : Option Nat)
    (hlenE : s.envList.length = envListSize)
    (hlenX : s.exceptionList.length = exceptionListSize)
    (h : popCallingEnv s t = some (s', r)) :
    (∃ j, getLastEnvEntry s t = some j ∧ ¬(envAt s' j).used ∧
      (∀ k < envListSize, (envAt s k).used → (envAt s k).thread = t →
        (envAt s k).level ≤ (envAt s j).level)) ∧
    (∀ k, r = some k →
      (excAt s k).used ∧ (excAt s k).thrown ∧ (excAt s k).thread = t ∧
      (excAt s' k).used ∧ ¬(excAt s' k).thrown ∧
      (∀ t2 s2 r2, popCallingEnv s' t2 = some (s2, r2) → r2 ≠ some k)) ∧
    (r = none → ∀ k < exceptionListSize,
      ¬((excAt s k).used ∧ (excAt s k).thrown ∧ (excAt s k).thread = t)) := by
  rcases popCallingEnv_spec s t s' r h with ⟨j, hgl, hbr⟩
  rcases getLastEnvEntry_some s t j hgl with ⟨hj, hjm, hjmax⟩
  have hrel : ∀ k, envAt (setEnv s j { envAt s j with used := false }) k =
      if k = j then { envAt s j with used := false } else envAt s k := by
    intro k
    rw [envAt_setEnv]
    by_cases hk : k = j
    · rw [if_pos ⟨hk, by rw [hlenE]; exact hj⟩, if_pos hk]
    · rw [if_neg (fun hc => hk hc.1), if_neg hk]
  rcases hbr with ⟨hr, hs, hft⟩ | ⟨k, hr, hft, hs⟩
  · refine ⟨⟨j, hgl, ?_, fun k hk hu ht => hjmax k hk ⟨hu, ht⟩⟩, ?_, ?_⟩
    · rw [hs, hrel j, if_pos rfl]
      simp
    · intro k hk
      rw [hr] at hk
      cases hk
    · intro _ k hk
      exact findThrown_none _ t _ hft k (List.mem_range.mpr hk)
  · rcases findThrown_some _ t _ k hft with ⟨hkm, hku, hkth, hkt⟩
    have hk16 : k < exceptionListSize := List.mem_range.mp hkm
    have hAt2 : ∀ m, excAt s' m =
        if m = k then { excAt s k with thrown := false } else excAt s m := by
      intro m
      rw [hs, excAt_setExc]
      by_cases hm : m = k
      · rw [if_pos ⟨hm, by
          show k < s.exceptionList.length
          rw [hlenX]; exact hk16⟩, if_pos hm]
        rfl
      · rw [if_neg (fun hc => hm hc.1), if_neg hm]
        rfl
    refine ⟨⟨j, hgl, ?_, fun m hm hu ht => hjmax m hm ⟨hu, ht⟩⟩, ?_, ?_⟩
    · have : s'.envList = (setEnv s j { envAt s j with used := false }).envList := by
        rw [hs]
        rfl
      rw [envAt, this]
      have := hrel j
      rw [envAt] at this
      rw [this, if_pos rfl]
      simp
    · intro k0 hk0
      rw [hr] at hk0
      cases Option.some.inj hk0
      refine ⟨hku, hkth, hkt, ?_, ?_, ?_⟩
      · rw [hAt2 k, if_pos rfl]
        exact hku
      · rw [hAt2 k, if_pos rfl]
        simp
      · intro t2 s2 r2 hpop2 hr2
        rcases popCallingEnv_spec s' t2 s2 r2 hpop2 with ⟨j2, hgl2, hbr2⟩
        rcases hbr2 with ⟨hr2n, _, _⟩ | ⟨k2, hr2s, hft2, _⟩
        · rw [hr2n] at hr2
          cases hr2
        · rw [hr2s] at hr2
          have hkk : k2 = k := Option.some.inj hr2
          rcases findThrown_some _ t2 _ k2 hft2 with ⟨_, _, hkth2, _⟩
          have hthis : (excAt s' k2).thrown = true := hkth2
          rw [hkk, hAt2 k, if_pos rfl] at hthis
          simp at hthis
    · intro hk0
      rw [hr] at hk0
      cases hk0

theorem C2_witness :
    (excAt demoThrow 0).used ∧ (excAt demoThrow 0).thrown ∧
    (excAt demoThrow 0).thread = 0 ∧ (excAt demoPop 0).used ∧
    ¬(excAt demoPop 0).thrown := by
  have h := C2_deliver_exactly_once demoThrow 0 demoPop (some 0)
    (by decide) (by decide) demoPop_eq
  have hb := h.2.1 0 rfl
  exact ⟨hb.1, hb.2.1, hb.2.2.1, hb.2.2.2.1, hb.2.2.2.2.1⟩

/-- C10: when popCallingEnv finds no in-use, in-flight record owned by the
calling thread, it reports no exception (the C function never writes through
its out parameter on this path, which lets the try macro pass NULL) and the
exception pool is left unchanged. -/
theorem C10_normal_exit_no_write (s : ExState) (t : Nat) (s' : ExState)
    (r : Option Nat)
    (h : popCallingEnv s t = some (s', r))
    (hnone : ∀ k < exceptionListSize,
      ¬((excAt s k).used ∧ (excAt s k).thrown ∧ (excAt s k).thread = t)) :
    r = none ∧ s'.exceptionList = s.exceptionList := by
  rcases popCallingEnv_spec s t s' r h with ⟨j, hgl, hbr⟩
  rcases hbr with ⟨hr, hs, hft⟩ | ⟨k, hr, hft, hs⟩
  · refine ⟨hr, ?_⟩
    rw [hs]
    rfl
  · rcases findThrown_some _ t _ k hft with ⟨hkm, hku, hkth, hkt⟩
    exact absurd ⟨hku, hkth, hkt⟩ (hnone k (List.mem_range.mp hkm))

theorem C10_witness :
    (none : Option Nat) = none ∧
    demoPushPop.exceptionList = demoPush.exceptionList :=
  C10_normal_exit_no_write demoPush 0 demoPushPop none demoPushPop_eq (by decide)

/-- C4: in a reachable state, exFree on a record that is in use, not in
flight and not currently the cause of another record returns every record of
its cause chain to the pool by clearing the in-use flags and changes nothing
else (all other pool entries and the whole environment registry are
untouched); exFree on a record that is in flight or referenced as a cause
signals a contract violation (a failing assert, which aborts before mutating
anything). -/
theorem C4_free_reclaims_chain (s : ExState) (e : Nat) (hreach : Reachable s)
    (he : e < exceptionListSize) (hu : (excAt s e).used) :
    (¬(excAt s e).thrown → causeRefCount s e = 0 →
      exFree s e = .ok (freeChain s exceptionListSize (some e)) ∧
      e ∈ causeChainList s exceptionListSize (some e) ∧
      iterCause s exceptionListSize (some e) = none ∧
      (∀ i ∈ causeChainList s exceptionListSize (some e),
        ¬(excAt (freeChain s exceptionListSize (some e)) i).used) ∧
      (∀ i < exceptionListSize,
        i ∉ causeChainList s exceptionListSize (some e) →
        excAt (freeChain s exceptionListSize (some e)) i = excAt s i) ∧
      (freeChain s exceptionListSize (some e)).envList = s.envList) ∧
    ((excAt s e).thrown ∨ 1 ≤ causeRefCount s e →
      exFree s e = .error CError.assertFail) := by
  rcases StateInv_reachable s hreach with ⟨_, hX⟩
  rcases hX with ⟨h1, h2, h3, h4, h5, h6⟩
  constructor
  · intro hnth hz
    have hnc : ¬(excAt s e).isCause := by
      intro hic
      have := h6 e he hu hic
      omega
    refine ⟨?_, ?_, (h5 e he hu).1, ?_, ?_, envList_freeChain _ _ _⟩
    · rw [exFree, getExceptionEntry, if_pos he]
      dsimp only
      rw [if_neg (fun hc => hc hu), if_neg hnc, if_neg hnth]
    · rw [show exceptionListSize = 15 + 1 from rfl, causeChainList]
      exact List.mem_cons_self _ _
    · intro i hi
      rw [excAt_freeChain, if_pos hi]
      simp
    · intro i hi hni
      rw [excAt_freeChain, if_neg hni]
  · intro hbad
    refine exFree_violation s e he hu ?_
    rcases hbad with hb | hb
    · exact Or.inr hb
    · refine Or.inl ?_
      by_contra hnc
      have := h3 e he
      rw [if_neg hnc] at this
      omega

theorem C4_witness :
    exFree demoAllocB 1 = .ok (freeChain demoAllocB exceptionListSize (some 1)) ∧
    1 ∈ causeChainList demoAllocB exceptionListSize (some 1) ∧
    (∀ i ∈ causeChainList demoAllocB exceptionListSize (some 1),
      ¬(excAt (freeChain demoAllocB exceptionListSize (some 1)) i).used) := by
  have h := (C4_free_reclaims_chain demoAllocB 1 demoAllocB_reachable
    (by decide) (by decide)).1 (by decide) (by decide)
  exact ⟨h.1, h.2.1, h.2.2.2.1⟩

/-- C7: a formatted message of MAX_MSG_LEN bytes or more is stored by exAlloc
and exThrow as the MAX_MSG_LEN - 1 byte prefix of the formatted output
followed by a terminating null byte: exactly MAX_MSG_LEN bytes are written
into the MAX_MSG_LEN-byte buffer, and for any formatted output at all the
write never exceeds MAX_MSG_LEN bytes. -/
theorem C7_message_truncation (fmt : List Nat)
    (hlong : maxMsgLen ≤ fmt.length) (hnz : ∀ b ∈ fmt, b ≠ 0) :
    (vsnprintfBuf maxMsgLen fmt).length = maxMsgLen ∧
    vsnprintfBuf maxMsgLen fmt = fmt.take (maxMsgLen - 1) ++ [0] ∧
    (fmt.take (maxMsgLen - 1)).length = maxMsgLen - 1 ∧
    (∀ b ∈ fmt.take (maxMsgLen - 1), b ≠ 0) ∧
    (∀ s code cause s' i, s.exceptionList.length = exceptionListSize →
      exAlloc s code cause fmt = .ok (s', i) →
      (excAt s' i).msg = fmt.take (maxMsgLen - 1) ++ [0]) ∧
    (∀ s t code cause s' i j, s.exceptionList.length = exceptionListSize →
      exThrow s t code cause fmt = .ok (s', i, j) →
      (excAt s' i).msg = fmt.take (maxMsgLen - 1) ++ [0]) ∧
    (∀ g : List Nat, (vsnprintfBuf maxMsgLen g).length ≤ maxMsgLen) := by
  have htk : (fmt.take (maxMsgLen - 1)).length = maxMsgLen - 1 := by
    rw [List.length_take]
    omega
  refine ⟨?_, rfl, htk, ?_, ?_, ?_, ?_⟩
  · rw [vsnprintfBuf, List.length_append, htk]
    decide
  · intro b hb
    exact hnz b (List.take_subset _ _ hb)
  · intro s code cause s' i hlen h
    rcases exAlloc_spec s code cause fmt s' i hlen h with ⟨_, _, _, _, _, hAt⟩
    rw [hAt i, if_pos rfl]
    rfl
  · intro s t code cause s' i j hlen h
    rcases exThrow_spec s t code cause fmt s' i j hlen h
      with ⟨_, _, _, _, _, _, hAt⟩
    rw [hAt i, if_pos rfl]
    rfl
  · intro g
    rw [vsnprintfBuf, List.length_append, List.length_take]
    have hm : maxMsgLen = 2048 := rfl
    simp
    omega

theorem C7_witness :
    maxMsgLen ≤ bigMsg.length ∧
    (vsnprintfBuf maxMsgLen bigMsg).length = maxMsgLen ∧
    (bigMsg.take (maxMsgLen - 1)).length = maxMsgLen - 1 := by
  have h1 : maxMsgLen ≤ bigMsg.length := by
    rw [bigMsg, List.length_replicate]
  have h2 : ∀ b ∈ bigMsg, b ≠ 0 := by
    intro b hb
    rw [bigMsg] at hb
    rw [List.eq_of_mem_replicate hb]
    omega
  have h := C7_message_truncation bigMsg h1 h2
  exact ⟨h1, h.1, h.2.2.1⟩

/-- C8: exRepeat on an allocated, not-in-flight record changes only the
thrown flag and the owning-thread field of that record (classification code,
message, cause chain, in-use and is-a-cause bits, all other pool entries and
the environment registry are untouched), and when the record is the only
in-flight record of the thread the following delivery in the enclosing block
returns the identical record with code, message and cause unchanged. -/
theorem C8_repeat_preserves_identity (s : ExState) (t e : Nat) (s' : ExState)
    (j : Nat)
    (hlenX : s.exceptionList.length = exceptionListSize)
    (hrep : exRepeat s t e = .ok (s', j))
    (honly : ∀ k < exceptionListSize, k ≠ e →
      ¬((excAt s k).used ∧ (excAt s k).thrown ∧ (excAt s k).thread = t)) :
    (excAt s' e).code = (excAt s e).code ∧
    (excAt s' e).msg = (excAt s e).msg ∧
    (excAt s' e).cause = (excAt s e).cause ∧
    (excAt s' e).used = (excAt s e).used ∧
    (excAt s' e).isCause = (excAt s e).isCause ∧
    (excAt s' e).thrown = true ∧
    (excAt s' e).thread = t ∧
    (∀ k, k ≠ e → excAt s' k = excAt s k) ∧
    s'.envList = s.envList ∧
    (∀ s2 r, popCallingEnv s' t = some (s2, r) →
      r = some e ∧
      (excAt s2 e).code = (excAt s e).code ∧
      (excAt s2 e).msg = (excAt s e).msg ∧
      (excAt s2 e).cause = (excAt s e).cause ∧
      (excAt s2 e).used = (excAt s e).used ∧
      ¬(excAt s2 e).thrown) := by
  rcases exRepeat_spec s t e s' j hrep with ⟨he, heu, heth, hgl, hs⟩
  have hAt : ∀ k, excAt s' k =
      if k = e then { excAt s e with thrown := true, thread := t }
      else excAt s k := by
    intro k
    rw [hs, excAt_setExc]
    by_cases hk : k = e
    · rw [if_pos ⟨hk, by rw [hlenX]; exact he⟩, if_pos hk]
    · rw [if_neg (fun hc => hk hc.1), if_neg hk]
  have hAte : excAt s' e = { excAt s e with thrown := true, thread := t } := by
    rw [hAt e, if_pos rfl]
  have hlen' : s'.exceptionList.length = exceptionListSize := by
    rw [hs, length_setExc, hlenX]
  refine ⟨by rw [hAte], by rw [hAte], by rw [hAte], by rw [hAte], by rw [hAte],
    by rw [hAte], by rw [hAte], ?_, by rw [hs]; rfl, ?_⟩
  · intro k hk
    rw [hAt k, if_neg hk]
  · intro s2 r hpop
    rcases popCallingEnv_spec s' t s2 r hpop with ⟨j2, hgl2, hbr⟩
    rcases hbr with ⟨hr, hs2, hft⟩ | ⟨k, hr, hft, hs2⟩
    · exfalso
      have hmatch : (excAt s' e).used ∧ (excAt s' e).thrown ∧
          (excAt s' e).thread = t := by
        rw [hAte]
        exact ⟨heu, rfl, rfl⟩
      exact findThrown_none _ t _ hft e (List.mem_range.mpr he) hmatch
    · rcases findThrown_some _ t _ k hft with ⟨hkm, hku, hkth, hkt⟩
      have hk16 : k < exceptionListSize := List.mem_range.mp hkm
      have hke : k = e := by
        by_contra hke
        have hsk : excAt s' k = excAt s k := by
          rw [hAt k, if_neg hke]
        refine honly k hk16 hke ⟨?_, ?_, ?_⟩
        · rw [← hsk]; exact hku
        · rw [← hsk]; exact hkth
        · rw [← hsk]; exact hkt
      subst hke
      have hAt2 : excAt s2 k = { excAt s' k with thrown := false } := by
        rw [hs2, excAt_setExc, if_pos ⟨rfl, by
          show k < s'.exceptionList.length
          rw [hlen']; exact he⟩]
        rfl
      refine ⟨hr, ?_, ?_, ?_, ?_, ?_⟩
      · rw [hAt2, hAte]
      · rw [hAt2, hAte]
      · rw [hAt2, hAte]
      · rw [hAt2, hAte]
      · rw [hAt2]
        simp

theorem C8_witness :
    (excAt demoRepeat 0).code = (excAt demoPushAlloc 0).code ∧
    (excAt demoRepeat 0).msg = (excAt demoPushAlloc 0).msg ∧
    (excAt demoRepeat 0).thrown = true ∧
    (excAt demoRepeatPop 0).code = (excAt demoPushAlloc 0).code ∧
    (excAt demoRepeatPop 0).msg = (excAt demoPushAlloc 0).msg ∧
    ¬(excAt demoRepeatPop 0).thrown := by
  have h := C8_repeat_preserves_identity demoPushAlloc 0 0 demoRepeat 0
    (by decide) demoRepeat_eq (by decide)
  have hd := h.2.2.2.2.2.2.2.2.2 demoRepeatPop (some 0) demoRepeatPop_eq
  exact ⟨h.1, h.2.1, h.2.2.2.2.2.1, hd.2.1, hd.2.2.1, hd.2.2.2.2.2⟩
